import Mathlib

/-!
# Bash script generation: `shells/bash.go`

A shallow embedding of the bash script generator of the runner.

* Go strings are byte sequences, so a string is a `List UInt8`; `lit` gives the
  UTF-8 bytes of a literal.
* The `io.Writer` every emitter appends to is the text written so far: an emitter
  takes the buffer and returns the extended buffer.
* A Go run-time panic (the slice `build.Sha[0:8]`) is the result `none`. The
  pointers the file follows without a test (`info.Build`, `Build.Runner`) are taken
  to be set; the two pointers it does test (`info.User`, `Runner.DisableVerbose`)
  are options.
* Code the file calls but does not contain (package `helpers`, package `common`,
  the embedded `AbstractShell`) is collected in the record `Deps`; every general
  theorem holds for every value of that record, in particular for every escaping
  primitive `ShellEscape`.
* The functions of the Go standard library are modelled on bytes after their
  documentation: `strings.Join`, `strings.Split`, `strings.TrimSpace`,
  `strconv.Quote`, `fmt.Sprintf`, `path.Clean`.
-/

namespace Shells

/-- A Go string: a sequence of bytes. -/
abbrev Str := List UInt8

/-- The UTF-8 bytes of a string literal. -/
def lit (s : String) : Str := s.data.flatMap String.utf8EncodeChar

/-! ## The Go standard library functions the file uses -/

/-- Go `strings.Join(list, sep)`. -/
def stringsJoin : List Str → Str → Str
  | [], _ => []
  | [a], _ => a
  | a :: b :: rest, sep => a ++ sep ++ stringsJoin (b :: rest) sep

/-- Go `strings.Split(s, sep)` for a one-byte separator: the pieces between the
separators, in order; a string without separator (the empty one too) is one piece. -/
def stringsSplit (sep : UInt8) : Str → List Str
  | [] => [[]]
  | b :: rest =>
    if b = sep then [] :: stringsSplit sep rest
    else
      match stringsSplit sep rest with
      | [] => [[b]]
      | l :: ls => (b :: l) :: ls

/-- The UTF-8 encodings of the code points for which Go `unicode.IsSpace` holds:
tab, line feed, vertical tab, form feed, carriage return, space, U+0085, U+00A0,
U+1680, U+2000 to U+200A, U+2028, U+2029, U+202F, U+205F, U+3000. -/
def spaceEncodings : List Str :=
  [[0x09], [0x0a], [0x0b], [0x0c], [0x0d], [0x20], [0xc2, 0x85], [0xc2, 0xa0],
   [0xe1, 0x9a, 0x80],
   [0xe2, 0x80, 0x80], [0xe2, 0x80, 0x81], [0xe2, 0x80, 0x82], [0xe2, 0x80, 0x83],
   [0xe2, 0x80, 0x84], [0xe2, 0x80, 0x85], [0xe2, 0x80, 0x86], [0xe2, 0x80, 0x87],
   [0xe2, 0x80, 0x88], [0xe2, 0x80, 0x89], [0xe2, 0x80, 0x8a],
   [0xe2, 0x80, 0xa8], [0xe2, 0x80, 0xa9], [0xe2, 0x80, 0xaf], [0xe2, 0x81, 0x9f],
   [0xe3, 0x80, 0x80]]

/-- One white-space code point removed from the front, if the text starts with one.
(Go decodes the first rune; it is a space exactly when the text starts with one of
the encodings above: an ill-formed sequence decodes to U+FFFD, which is no space.) -/
def dropSpaceFront (s : Str) : Option Str :=
  (spaceEncodings.find? (fun e => e.isPrefixOf s)).map (fun e => s.drop e.length)

/-- One white-space code point removed from the end, if the text ends with one. -/
def dropSpaceBack (s : Str) : Option Str :=
  (spaceEncodings.find? (fun e => e.isSuffixOf s)).map (fun e => s.take (s.length - e.length))

/-- Leading white space removed: at most `fuel` code points. -/
def trimFront : Nat → Str → Str
  | 0, s => s
  | fuel + 1, s =>
    match dropSpaceFront s with
    | some r => trimFront fuel r
    | none => s

/-- Trailing white space removed: at most `fuel` code points. -/
def trimBack : Nat → Str → Str
  | 0, s => s
  | fuel + 1, s =>
    match dropSpaceBack s with
    | some r => trimBack fuel r
    | none => s

/-- Go `strings.TrimSpace(s)`: all leading and trailing white space removed. Every
removal takes at least one byte, so the length of the text is enough fuel. -/
def stringsTrimSpace (s : Str) : Str :=
  let t := trimFront s.length s
  trimBack t.length t

/-- The digit of Go's `lowerhex` table for a value below sixteen. -/
def lowerhex (n : Nat) : UInt8 :=
  if n < 10 then (48 + n).toUInt8 else (87 + n).toUInt8

/-- What Go `strconv.Quote` writes for one byte below 0x7f (an ASCII character
other than DEL): a backslash before the double quote and the backslash, a printable
character as it is, the short escapes for the control characters that have one, a
two-digit hexadecimal escape for the other control characters. -/
def quoteByte (b : UInt8) : Str :=
  if b = 0x22 ∨ b = 0x5c then [0x5c, b]
  else if 0x20 ≤ b then [b]
  else if b = 0x07 then lit "\\a"
  else if b = 0x08 then lit "\\b"
  else if b = 0x0c then lit "\\f"
  else if b = 0x0a then lit "\\n"
  else if b = 0x0d then lit "\\r"
  else if b = 0x09 then lit "\\t"
  else if b = 0x0b then lit "\\v"
  else [0x5c, 0x78, lowerhex (b.toNat / 16), lowerhex (b.toNat % 16)]

/-- The inside of a Go quoted string. `strconv.Quote` works from left to right, one
code point at a time and without memory, so the text up to the first byte that is
DEL or not ASCII is quoted byte by byte; what Go writes for the text from such a
byte on (it depends on the Unicode tables of the Go release) is `quoteTail`. -/
def quoteBody (quoteTail : Str → Str) : Str → Str
  | [] => []
  | b :: rest =>
    if b < 0x7f then quoteByte b ++ quoteBody quoteTail rest else quoteTail (b :: rest)

/-- Go `strconv.Quote(s)`, which is also what `%q` formats a string operand to: a
double-quoted Go string literal. -/
def strconvQuote (quoteTail : Str → Str) (s : Str) : Str :=
  [0x22] ++ quoteBody quoteTail s ++ [0x22]

/-- Go `fmt.Sprintf(format, args...)` for string operands and the two verbs this
file uses, `%s` (the operand as it is) and `%q` (the operand quoted). A verb without
operand and operands without verb are reported the way Go does; any other byte of
the format, a `%` before another verb included, is copied. -/
def sprintf (quoteTail : Str → Str) : Str → List Str → Str
  | [], [] => []
  | [], a :: args =>
    lit "%!(EXTRA " ++ stringsJoin ((a :: args).map (fun x => lit "string=" ++ x)) (lit ", ")
      ++ lit ")"
  | [b], args => b :: sprintf quoteTail [] args
  | b :: c :: rest, args =>
    if b = 0x25 ∧ (c = 0x73 ∨ c = 0x71) then
      match args with
      | a :: args' =>
        (if c = 0x73 then a else strconvQuote quoteTail a) ++ sprintf quoteTail rest args'
      | [] => [0x25, 0x21, c] ++ lit "(MISSING)" ++ sprintf quoteTail rest []
    else b :: sprintf quoteTail (c :: rest) args

/-- The write position of Go `path.Clean` after a `..` element took back the last
element of the output: one byte back, then back while above `dotdot` and the byte at
the position is no slash. The argument is the position after the first step. -/
def cleanBack (out : Str) (dotdot : Nat) : Nat → Nat
  | 0 => 0
  | w + 1 => if dotdot < w + 1 ∧ out.getD (w + 1) 0 ≠ 0x2f then cleanBack out dotdot w else w + 1

/-- The loop of Go `path.Clean`: `r` is the read position in `path`, `out` the output
so far, `dotdot` the position in `out` that a `..` element may not go back past.
Every round moves `r` forward, so the length of `path` is enough fuel. -/
def cleanLoop (path : Str) (rooted : Bool) : Nat → Nat → Str → Nat → Str
  | 0, _, out, _ => out
  | fuel + 1, r, out, dotdot =>
    if r < path.length then
      if path.getD r 0 = 0x2f then
        cleanLoop path rooted fuel (r + 1) out dotdot
      else if path.getD r 0 = 0x2e ∧ (r + 1 = path.length ∨ path.getD (r + 1) 0 = 0x2f) then
        cleanLoop path rooted fuel (r + 1) out dotdot
      else if path.getD r 0 = 0x2e ∧ path.getD (r + 1) 0 = 0x2e ∧
          (r + 2 = path.length ∨ path.getD (r + 2) 0 = 0x2f) then
        if dotdot < out.length then
          cleanLoop path rooted fuel (r + 2) (out.take (cleanBack out dotdot (out.length - 1)))
            dotdot
        else if !rooted then
          let out1 := (if 0 < out.length then out ++ [0x2f] else out) ++ [0x2e, 0x2e]
          cleanLoop path rooted fuel (r + 2) out1 out1.length
        else
          cleanLoop path rooted fuel (r + 2) out dotdot
      else
        let out1 :=
          if (rooted ∧ out.length ≠ 1) ∨ (!rooted ∧ out.length ≠ 0) then out ++ [0x2f] else out
        let seg := (path.drop r).takeWhile (fun c => c ≠ 0x2f)
        cleanLoop path rooted fuel (r + seg.length) (out1 ++ seg) dotdot
    else out

/-- Go `path.Clean(path)`: the shortest path name equivalent to `path` by purely
lexical processing. -/
def pathClean (path : Str) : Str :=
  if path = [] then lit "."
  else
    let rooted : Bool := path.getD 0 0 = 0x2f
    let out :=
      if rooted then cleanLoop path rooted path.length 1 [0x2f] 1
      else cleanLoop path rooted path.length 0 [] 0
    if out.length = 0 then lit "." else out

/-- Go slice expression `s[lo:hi]` on a string: the bytes from `lo` up to `hi`; a
run-time panic (`none`) unless `lo ≤ hi ≤ len(s)`. -/
def goSlice (s : Str) (lo hi : Nat) : Option Str :=
  if lo ≤ hi ∧ hi ≤ s.length then some ((s.take hi).drop lo) else none

/-- Go `io.WriteString(w, s)` on a buffered writer over a fresh buffer. -/
def ioWriteString (w : Str) (s : Str) : Str := w ++ s

/-! ## The data model -/

/-- A Go `interface{}` value as the option map of a build holds it. -/
inductive Value where
  /-- A `string`. -/
  | str : Str → Value
  /-- A `bool`. -/
  | bool : Bool → Value
  /-- A `[]interface{}`. -/
  | list : List Value → Value
  /-- A `map[string]interface{}`, as its key-value pairs. -/
  | map : List (Str × Value) → Value
  /-- A value of any other dynamic type, `nil` included. -/
  | other : Value

/-- The Go type `common.ShellType`: what kind of shell is asked for. -/
inductive ShellType where
  | NormalShell : ShellType
  | LoginShell : ShellType
  deriving DecidableEq

/-- The Go type `common.RunnerConfig`: of its fields the file reads
`DisableVerbose` (a `*bool`, `none` when not set); `rest` stands for the others. -/
structure RunnerConfig (ρ : Type) where
  DisableVerbose : Option Bool
  rest : ρ

/-- The Go type `common.Build`, with the fields the file reads. -/
structure Build (ρ : Type) where
  Hostname : Str
  RepoURL : Str
  Sha : Str
  RefName : Str
  AllowGitFetch : Bool
  Commands : Str
  Options : List (Str × Value)
  Token : Str
  ID : Int
  Runner : RunnerConfig ρ

/-- The Go type `common.ShellScriptInfo`: the job description. `User` is `none` when
no user is set. -/
structure ShellScriptInfo (ρ : Type) where
  Build : Build ρ
  Environment : List Str
  User : Option Str
  Typ : ShellType

/-- The Go type `common.ShellScript`: the script document. -/
structure ShellScript where
  Environment : List Str
  Script : Str
  Command : Str
  Arguments : List Str

/-- What the file calls and does not contain: the escaping primitive and the
constants of package `helpers`, the methods of `common.Build` and of the embedded
`AbstractShell`, the upload address of package `common`, the `filepath.Join` of the
target platform, and `quoteTail` (see `quoteBody`). -/
structure Deps (ρ : Type) where
  ShellEscape : Str → Str
  ToSlash : Str → Str
  ANSI_BOLD_GREEN : Str
  ANSI_BOLD_YELLOW : Str
  ANSI_RESET : Str
  FullProjectDir : Build ρ → Str
  GetVariables : Build ρ → Str → List Str → List Str
  GetArtifactsUploadURL : RunnerConfig ρ → Int → Str
  filepathJoin : Str → Str → Str
  quoteTail : Str → Str

/-- Modelled from the spec: `helpers.BoolOrDefault`, which is not in this file. The
flag "verbose echoing disabled" counts as the default when it is not set. -/
def BoolOrDefault (value : Option Bool) (defaultValue : Bool) : Bool :=
  match value with
  | some b => b
  | none => defaultValue

/-- Lookup in a Go map given as key-value pairs; `none` for a key that is absent. -/
def mapIndex : List (Str × Value) → Str → Option Value
  | [], _ => none
  | (k, v) :: rest, key => if k = key then some v else mapIndex rest key

/-! ## The emitters -/

section Emitters

variable {ρ : Type} (D : Deps ρ)

/-- Go `executeCommand`: one line, the escaped command name and the escaped
arguments with one space between them. -/
def executeCommand (w : Str) (cmd : Str) (arguments : List Str) : Str :=
  let list := arguments.foldl (fun list argument => list ++ [D.ShellEscape argument])
    [D.ShellEscape cmd]
  ioWriteString w (stringsJoin list (lit " ") ++ lit "\n")

/-- Go `executeCommandFormat`: one line, the format with its operands put in; nothing
is escaped. -/
def executeCommandFormat (w : Str) (format : Str) (arguments : List Str) : Str :=
  ioWriteString w (sprintf D.quoteTail (format ++ lit "\n") arguments)

/-- Go `echoColored`: an `echo` of the text in bold green. -/
def echoColored (w : Str) (text : Str) : Str :=
  let coloredText := D.ANSI_BOLD_GREEN ++ text ++ D.ANSI_RESET
  executeCommand D w (lit "echo") [coloredText]

/-- Go `echoWarning`: an `echo` of the text in bold yellow. -/
def echoWarning (w : Str) (text : Str) : Str :=
  let coloredText := D.ANSI_BOLD_YELLOW ++ text ++ D.ANSI_RESET
  executeCommand D w (lit "echo") [coloredText]

/-- Go `echoColoredFormat`. -/
def echoColoredFormat (w : Str) (format : Str) (a : List Str) : Str :=
  echoColored D w (sprintf D.quoteTail format a)

/-- Go `writeIfDirectory`. -/
def writeIfDirectory (w : Str) (directory : Str) : Str :=
  executeCommandFormat D w (lit "if [[ -d %q ]]; then") [directory]

/-- Go `writeIfFile`. -/
def writeIfFile (w : Str) (directory : Str) : Str :=
  executeCommandFormat D w (lit "if [[ -e %q ]]; then") [directory]

/-- Go `writeElse`. -/
def writeElse (w : Str) : Str :=
  executeCommandFormat D w (lit "else") []

/-- Go `writeEndIf`. -/
def writeEndIf (w : Str) : Str :=
  executeCommandFormat D w (lit "fi") []

/-- Go `writeCloneCmd`. -/
def writeCloneCmd (w : Str) (build : Build ρ) (projectDir : Str) : Str :=
  let w := echoColoredFormat D w (lit "Cloning repository...") []
  let w := executeCommand D w (lit "rm") [lit "-rf", projectDir]
  let w := executeCommand D w (lit "mkdir") [lit "-p", projectDir]
  let w := executeCommand D w (lit "git") [lit "clone", build.RepoURL, projectDir]
  executeCommand D w (lit "cd") [projectDir]

/-- Go `writeFetchCmd`. -/
def writeFetchCmd (w : Str) (build : Build ρ) (projectDir : Str) (gitDir : Str) : Str :=
  let w := writeIfDirectory D w gitDir
  let w := echoColoredFormat D w (lit "Fetching changes...") []
  let w := executeCommand D w (lit "cd") [projectDir]
  let w := executeCommand D w (lit "git") [lit "clean", lit "-ffdx"]
  let w := executeCommand D w (lit "git") [lit "reset", lit "--hard"]
  let w := executeCommand D w (lit "git") [lit "remote", lit "set-url", lit "origin", build.RepoURL]
  let w := executeCommand D w (lit "git") [lit "fetch", lit "origin"]
  let w := writeElse D w
  let w := writeCloneCmd D w build projectDir
  writeEndIf D w

/-- Go `writeCheckoutCmd`; the slice `build.Sha[0:8]` panics on a shorter `Sha`. -/
def writeCheckoutCmd (w : Str) (build : Build ρ) : Option Str := do
  let sha8 ← goSlice build.Sha 0 8
  let w := echoColoredFormat D w (lit "Checking out %s as %s...") [sha8, build.RefName]
  pure (executeCommand D w (lit "git") [lit "checkout", build.Sha])

/-- Go `fullProjectDir`. -/
def fullProjectDir (info : ShellScriptInfo ρ) : Str :=
  let projectDir := D.FullProjectDir info.Build
  D.ToSlash projectDir

/-- Go `writeCdBuildDir`. -/
def writeCdBuildDir (w : Str) (info : ShellScriptInfo ρ) : Str :=
  executeCommand D w (lit "cd") [fullProjectDir D info]

/-! ## The phase builders -/

/-- Go `generateExports`: one `export` command for every entry of the variable list. -/
def generateExports (info : ShellScriptInfo ρ) : Str :=
  (D.GetVariables info.Build (fullProjectDir D info) info.Environment).foldl
    (fun w keyValue => executeCommand D w (lit "export") [keyValue]) []

/-- Go `generatePreBuildScript`. -/
def generatePreBuildScript (info : ShellScriptInfo ρ) : Option Str := do
  let w : Str := []
  let w :=
    if info.Build.Hostname.length ≠ 0 then
      executeCommand D w (lit "echo")
        [lit "Running on $(hostname) via " ++ info.Build.Hostname ++ lit "..."]
    else
      executeCommand D w (lit "echo") [lit "Running on $(hostname)..."]
  let build := info.Build
  let projectDir := fullProjectDir D info
  let gitDir := D.filepathJoin projectDir (lit ".git")
  let w :=
    if build.AllowGitFetch then writeFetchCmd D w build projectDir gitDir
    else writeCloneCmd D w build projectDir
  writeCheckoutCmd D w build

/-- The body of the loop of Go `generateCommands`, for one line of the command text. -/
def commandStep (info : ShellScriptInfo ρ) (w : Str) (command : Str) : Str :=
  let command := stringsTrimSpace command
  let w :=
    if !BoolOrDefault info.Build.Runner.DisableVerbose false then
      if command ≠ [] then echoColored D w (lit "$ " ++ command)
      else executeCommand D w (lit "echo") []
    else w
  ioWriteString w (command ++ lit "\n")

/-- Go `generateCommands`. -/
def generateCommands (info : ShellScriptInfo ρ) : Str :=
  let w := writeCdBuildDir D [] info
  let commands := info.Build.Commands
  let commands := stringsTrimSpace commands
  (stringsSplit 0x0a commands).foldl (commandStep D info) w

/-- The loop over the artifact paths of Go `findFiles`: a filter for every entry that
is a string, other entries are passed over. -/
def wholenameFilters (paths : List Value) : List Str :=
  paths.foldl
    (fun files artifactPath =>
      match artifactPath with
      | Value.str file =>
        let file := lit "./" ++ pathClean file
        files ++ [lit "-wholename " ++ strconvQuote D.quoteTail file]
      | _ => files)
    []

/-- Go `findFiles`; `list` is what the option map has under the key, `none` when it
has nothing. -/
def findFiles (w : Str) (list : Option Value) (filepath : Str) : Str :=
  match list with
  | some (Value.map hash) =>
    let w :=
      match mapIndex hash (lit "paths") with
      | some (Value.list paths) =>
        let files := wholenameFilters D paths
        if files.length ≠ 0 then
          let files := lit "'(' " ++ stringsJoin files (lit " -or ") ++ lit " ')'"
          executeCommandFormat D w (lit "find . %s -type f >> %q") [files, filepath]
        else w
      | _ => w
    match mapIndex hash (lit "untracked") with
    | some (Value.bool true) =>
      executeCommandFormat D w (lit "git ls-files -o >> %q") [filepath]
    | _ => w
  | _ => w

/-- Go `generatePostBuildScript`. -/
def generatePostBuildScript (info : ShellScriptInfo ρ) : Str :=
  let w := writeCdBuildDir D [] info
  let w := findFiles D w (mapIndex info.Build.Options (lit "artifacts")) (lit "artifacts.files")
  let w := writeIfFile D w (lit "artifacts.files")
  let w := echoColored D w (lit "Archiving artifacts...")
  let w := executeCommand D w (lit "tar")
    [lit "-zcv", lit "-T", lit "artifacts.files", lit "-f", lit "artifacts.tgz"]
  let w := writeEndIf D w
  let w := writeIfFile D w (lit "artifacts.tgz")
  let w := echoColored D w (lit "Uploading artifacts...")
  let w := executeCommand D w (lit "du") [lit "-h", lit "artifacts.tgz"]
  let w := executeCommand D w (lit "curl")
    [lit "-s", lit "-S", lit "--fail", lit "--retry", lit "3", lit "-X", lit "POST",
     lit "-#",
     lit "-o", lit "artifacts.upload.log",
     lit "-H", lit "BUILD-TOKEN: " ++ info.Build.Token,
     lit "-F", lit "file=@artifacts.tgz",
     D.GetArtifactsUploadURL info.Build.Runner info.Build.ID]
  writeEndIf D w

/-- Go `GenerateScript`: the script, the variable list, and the command that runs
the script. The Go function always returns a `nil` error, so the result is the
script document alone, or `none` for a panic. -/
def GenerateScript (info : ShellScriptInfo ρ) : Option ShellScript := do
  let w : Str := []
  let w := ioWriteString w (lit "#!/usr/bin/env bash\n\n")
  let w := ioWriteString w (generateExports D info)
  let w := ioWriteString w (lit "set -eo pipefail\n")
  let pre ← generatePreBuildScript D info
  let w := ioWriteString w (lit ": | eval " ++ D.ShellEscape pre ++ lit "\n")
  let w := ioWriteString w (lit "echo\n")
  let w := ioWriteString w (lit ": | eval " ++ D.ShellEscape (generateCommands D info) ++ lit "\n")
  let w := ioWriteString w (lit "echo\n")
  let w := ioWriteString w
    (lit ": | eval " ++ D.ShellEscape (generatePostBuildScript D info) ++ lit "\n")
  let script : ShellScript :=
    { Script := w
      Environment := D.GetVariables info.Build (fullProjectDir D info) info.Environment
      Command := []
      Arguments := [] }
  match info.User with
  | some user =>
    if info.Typ = ShellType.LoginShell then
      pure { script with
        Command := lit "su"
        Arguments := [lit "--shell", lit "/bin/bash", lit "--login", user] }
    else
      pure { script with
        Command := lit "su"
        Arguments := [lit "--shell", lit "/bin/bash", user] }
  | none =>
    if info.Typ = ShellType.LoginShell then
      pure { script with Command := lit "bash", Arguments := [lit "--login"] }
    else
      pure { script with Command := lit "bash" }

end Emitters

/-! ## The emitted lines as data

The claims speak of the lines of the generated text. A line is kept here as data
(`Item`) next to its text (`Item.render`); the theorems below show that every
builder writes the text of an explicit sequence of lines. -/

/-- One emitted line, before it is written as text. -/
inductive Item where
  /-- A line of `executeCommand`: a command and its arguments. -/
  | command : Str → List Str → Item
  /-- The opening line of a conditional on a directory. -/
  | ifDirectory : Str → Item
  /-- The opening line of a conditional on a file. -/
  | ifFile : Str → Item
  /-- The line `else`. -/
  | elseMark : Item
  /-- The line `fi`. -/
  | endIf : Item
  /-- A text written as it is, followed by a line feed. -/
  | verbatim : Str → Item

section Items

variable {ρ : Type} (D : Deps ρ)

/-- The line of a command: the escaped tokens of the command name and of every
argument, one space between them, and a line feed. -/
def commandLine (cmd : Str) (arguments : List Str) : Str :=
  stringsJoin ((cmd :: arguments).map D.ShellEscape) (lit " ") ++ lit "\n"

/-- The text of an emitted line. -/
def Item.render : Item → Str
  | Item.command cmd arguments => commandLine D cmd arguments
  | Item.ifDirectory directory =>
    lit "if [[ -d " ++ strconvQuote D.quoteTail directory ++ lit " ]]; then\n"
  | Item.ifFile file => lit "if [[ -e " ++ strconvQuote D.quoteTail file ++ lit " ]]; then\n"
  | Item.elseMark => lit "else\n"
  | Item.endIf => lit "fi\n"
  | Item.verbatim text => text ++ lit "\n"

/-- The text of a sequence of emitted lines. -/
def renderItems : List Item → Str
  | [] => []
  | item :: rest => item.render D ++ renderItems rest

/-- The bold-green echo of a text, as an emitted line. -/
def echoItem (text : Str) : Item :=
  Item.command (lit "echo") [D.ANSI_BOLD_GREEN ++ text ++ D.ANSI_RESET]

/-- The line `cd <project dir>`. -/
def cdItem (info : ShellScriptInfo ρ) : Item :=
  Item.command (lit "cd") [fullProjectDir D info]

/-- Whether a line is the command `git` with the given subcommand as first argument. -/
def Item.isGit (sub : Str) : Item → Bool
  | Item.command cmd (a :: _) => cmd == lit "git" && a == sub
  | _ => false

/-- Whether a line opens a conditional. -/
def Item.isIf : Item → Bool
  | Item.ifDirectory _ => true
  | Item.ifFile _ => true
  | _ => false

/-- Whether a line is `else`. -/
def Item.isElse : Item → Bool
  | Item.elseMark => true
  | _ => false

/-- Whether a line is `fi`. -/
def Item.isEndIf : Item → Bool
  | Item.endIf => true
  | _ => false

/-- Whether a line belongs to a conditional block: `if`, `else` or `fi`. -/
def Item.isControl (item : Item) : Bool :=
  item.isIf || item.isElse || item.isEndIf

/-- The first line of the pre-build script: where the job runs. -/
def hostItem (build : Build ρ) : Item :=
  if build.Hostname.length ≠ 0 then
    Item.command (lit "echo") [lit "Running on $(hostname) via " ++ build.Hostname ++ lit "..."]
  else
    Item.command (lit "echo") [lit "Running on $(hostname)..."]

/-- The lines of a fresh clone, the body of `writeCloneCmd`. -/
def cloneItems (build : Build ρ) (projectDir : Str) : List Item :=
  [echoItem D (lit "Cloning repository..."),
   Item.command (lit "rm") [lit "-rf", projectDir],
   Item.command (lit "mkdir") [lit "-p", projectDir],
   Item.command (lit "git") [lit "clone", build.RepoURL, projectDir],
   Item.command (lit "cd") [projectDir]]

/-- The lines of an incremental fetch, the then-branch of `writeFetchCmd`. -/
def fetchItems (build : Build ρ) (projectDir : Str) : List Item :=
  [echoItem D (lit "Fetching changes..."),
   Item.command (lit "cd") [projectDir],
   Item.command (lit "git") [lit "clean", lit "-ffdx"],
   Item.command (lit "git") [lit "reset", lit "--hard"],
   Item.command (lit "git") [lit "remote", lit "set-url", lit "origin", build.RepoURL],
   Item.command (lit "git") [lit "fetch", lit "origin"]]

/-- The two lines of the checkout: the narration with the first eight bytes of the
commit and the ref name, and the checkout of the commit. -/
def checkoutItems (build : Build ρ) : List Item :=
  [echoItem D (lit "Checking out " ++ build.Sha.take 8 ++ lit " as " ++ build.RefName ++ lit "..."),
   Item.command (lit "git") [lit "checkout", build.Sha]]

/-- The directory the fetch conditional tests: `filepath.Join(projectDir, ".git")`. -/
def gitDirOf (info : ShellScriptInfo ρ) : Str :=
  D.filepathJoin (fullProjectDir D info) (lit ".git")

/-- The lines of the pre-build script before the checkout: where the job runs, then
the conditional fetch or the clone. -/
def syncItems (info : ShellScriptInfo ρ) : List Item :=
  hostItem info.Build ::
    (if info.Build.AllowGitFetch then
      [Item.ifDirectory (gitDirOf D info)]
        ++ fetchItems D info.Build (fullProjectDir D info) ++ [Item.elseMark]
        ++ cloneItems D info.Build (fullProjectDir D info) ++ [Item.endIf]
    else cloneItems D info.Build (fullProjectDir D info))

/-- The lines of the command text: the text trimmed, split at the line feeds, every
piece trimmed. -/
def trimmedLines (commands : Str) : List Str :=
  (stringsSplit 0x0a (stringsTrimSpace commands)).map stringsTrimSpace

/-- What the command phase writes for one trimmed line when narration is on: for a
line that is not empty the bold-green echo of `$ ` and the line, then the line as it
is; for an empty line a bare `echo`, then the empty line as it is. -/
def narratedItems (l : Str) : List Item :=
  if l ≠ [] then [echoItem D (lit "$ " ++ l), Item.verbatim l]
  else [Item.command (lit "echo") [], Item.verbatim []]

/-- The reading of the command phase with narration on that leaves the empty line
out: for an empty line a bare `echo` and nothing else. -/
def narratedItemsBare (l : Str) : List Item :=
  if l ≠ [] then [echoItem D (lit "$ " ++ l), Item.verbatim l]
  else [Item.command (lit "echo") []]

/-- The reading of the exports phase that escapes the value alone: the line
`export <name>=<escaped value>` for a name and a value. -/
def exportLineByValue (name value : Str) : Str :=
  lit "export " ++ name ++ lit "=" ++ D.ShellEscape value ++ lit "\n"

/-- The same reading with the word `export` escaped like a command name. -/
def exportLineByValueEscaped (name value : Str) : Str :=
  D.ShellEscape (lit "export") ++ lit " " ++ name ++ lit "=" ++ D.ShellEscape value ++ lit "\n"

end Items

/-! ## A concrete job, for evaluation -/

/-- A sample escaping primitive, POSIX single quoting: the text between single
quotes, every single quote of the text written as quote, backslash, quote, quote. -/
def sampleEscape (s : Str) : Str :=
  [0x27] ++ s.flatMap (fun b => if b = 0x27 then lit "'\\''" else [b]) ++ [0x27]

/-- Sample values for what the file calls and does not contain: `sampleEscape`, no
change of slashes, the usual colour sequences, a fixed project directory, the extra
environment as the variable list, a fixed upload address, the `filepath.Join` of a
Unix system, and a `quoteTail` that copies (no text of the samples reaches it). -/
def sampleDeps : Deps Unit where
  ShellEscape := sampleEscape
  ToSlash := fun s => s
  ANSI_BOLD_GREEN := lit "\x1b[32;1m"
  ANSI_BOLD_YELLOW := lit "\x1b[33;1m"
  ANSI_RESET := lit "\x1b[0;m"
  FullProjectDir := fun _ => lit "/builds/group/project"
  GetVariables := fun _ _ env => env
  GetArtifactsUploadURL := fun _ _ => lit "https://ci.example/api/v1/builds/7/artifacts"
  filepathJoin := fun a b => pathClean (a ++ lit "/" ++ b)
  quoteTail := fun s => s

/-- A sample job: forty-digit commit, clone, three command lines with an empty one in
the middle, no artifact option, no user. -/
def sampleInfo : ShellScriptInfo Unit where
  Build :=
    { Hostname := lit "runner-1"
      RepoURL := lit "https://example/repo.git"
      Sha := lit "abcdef1234567890abcdef1234567890abcdef12"
      RefName := lit "main"
      AllowGitFetch := false
      Commands := lit "echo hi\n\nls"
      Options := []
      Token := lit "secret"
      ID := 7
      Runner := { DisableVerbose := none, rest := () } }
  Environment := [lit "CI=true", lit "NAME=a b"]
  User := none
  Typ := ShellType.NormalShell

/-- The sample job with narration switched off. -/
def quietInfo : ShellScriptInfo Unit :=
  { sampleInfo with
    Build := { sampleInfo.Build with Runner := { DisableVerbose := some true, rest := () } } }

/-- An artifact rule whose only path is `$(id)`. -/
def substitutionRule : Value :=
  Value.map [(lit "paths", Value.list [Value.str (lit "$(id)")])]

/-! ## The artifact phase and the assembled script as lines -/

section MoreItems

variable {ρ : Type} (D : Deps ρ)

/-- Whether an option value is a string. -/
def Value.isStr : Value → Bool
  | Value.str _ => true
  | _ => false

/-- The strings among the entries of a path list, in order. -/
def stringPaths : List Value → List Str
  | [] => []
  | Value.str file :: rest => file :: stringPaths rest
  | _ :: rest => stringPaths rest

/-- The filter of one artifact path: `-wholename ` and the Go quoted string of `./`
followed by the cleaned path. -/
def wholenameFilter (file : Str) : Str :=
  lit "-wholename " ++ strconvQuote D.quoteTail (lit "./" ++ pathClean file)

/-- The `find` line for a list of filters and a manifest file, without its line feed:
the filters joined by ` -or ` in one group between quoted parentheses. -/
def findText (filters : List Str) (filepath : Str) : Str :=
  lit "find . '(' " ++ stringsJoin filters (lit " -or ") ++ lit " ')' -type f >> "
    ++ strconvQuote D.quoteTail filepath

/-- The `git ls-files` line for a manifest file, without its line feed. -/
def lsFilesText (filepath : Str) : Str :=
  lit "git ls-files -o >> " ++ strconvQuote D.quoteTail filepath

/-- The lines `findFiles` writes for what the rule has under `paths`: the `find` line
if that is a list with at least one string entry, nothing otherwise. -/
def pathsItems (paths : Option Value) (filepath : Str) : List Item :=
  match paths with
  | some (Value.list entries) =>
    if stringPaths entries ≠ [] then
      [Item.verbatim (findText D ((stringPaths entries).map (wholenameFilter D)) filepath)]
    else []
  | _ => []

/-- The lines `findFiles` writes for what the rule has under `untracked`: the
`git ls-files` line if that is the boolean `true`, nothing otherwise. -/
def untrackedItems (untracked : Option Value) (filepath : Str) : List Item :=
  match untracked with
  | some (Value.bool true) => [Item.verbatim (lsFilesText D filepath)]
  | _ => []

/-- The lines `findFiles` writes for what the option map has under `artifacts`. -/
def findItems (list : Option Value) (filepath : Str) : List Item :=
  match list with
  | some (Value.map hash) =>
    pathsItems D (mapIndex hash (lit "paths")) filepath
      ++ untrackedItems D (mapIndex hash (lit "untracked")) filepath
  | _ => []

/-- The archive block of the post-build script. -/
def archiveItems : List Item :=
  [Item.ifFile (lit "artifacts.files"),
   echoItem D (lit "Archiving artifacts..."),
   Item.command (lit "tar")
     [lit "-zcv", lit "-T", lit "artifacts.files", lit "-f", lit "artifacts.tgz"],
   Item.endIf]

/-- The upload command of the post-build script, for a token and an upload address. -/
def curlItem (token url : Str) : Item :=
  Item.command (lit "curl")
    [lit "-s", lit "-S", lit "--fail", lit "--retry", lit "3", lit "-X", lit "POST",
     lit "-#",
     lit "-o", lit "artifacts.upload.log",
     lit "-H", lit "BUILD-TOKEN: " ++ token,
     lit "-F", lit "file=@artifacts.tgz",
     url]

/-- The upload block of the post-build script, for a token, a runner configuration and
a job number. -/
def uploadItems (token : Str) (runner : RunnerConfig ρ) (id : Int) : List Item :=
  [Item.ifFile (lit "artifacts.tgz"),
   echoItem D (lit "Uploading artifacts..."),
   Item.command (lit "du") [lit "-h", lit "artifacts.tgz"],
   curlItem token (D.GetArtifactsUploadURL runner id),
   Item.endIf]

/-- The lines of the post-build script. -/
def postBuildItems (info : ShellScriptInfo ρ) : List Item :=
  cdItem D info ::
    (findItems D (mapIndex info.Build.Options (lit "artifacts")) (lit "artifacts.files")
      ++ archiveItems D
      ++ uploadItems D info.Build.Token info.Build.Runner info.Build.ID)

/-- The lines of the command phase after the `cd` line. -/
def commandItems (info : ShellScriptInfo ρ) : List Item :=
  if BoolOrDefault info.Build.Runner.DisableVerbose false then
    (trimmedLines info.Build.Commands).map Item.verbatim
  else (trimmedLines info.Build.Commands).flatMap (narratedItems D)

/-- The `: | eval` line of a phase: the escaped phase text as the one argument. -/
def evalLine (phase : Str) : Str :=
  lit ": | eval " ++ D.ShellEscape phase ++ lit "\n"

end MoreItems

/-- Where a sequence of lines stands with respect to conditional blocks: outside of
every block, in the then-branch of a block, or in its else-branch. -/
inductive BlockState where
  | outside : BlockState
  | inThen : BlockState
  | inElse : BlockState
  deriving DecidableEq

/-- One line read: an `if` opens a block and is allowed outside of blocks only (no
nesting), an `else` is allowed in a then-branch only, a `fi` closes the open block;
`none` for a line that is not allowed where it stands. -/
def blockStep (state : BlockState) (item : Item) : Option BlockState :=
  if item.isIf then
    match state with
    | BlockState.outside => some BlockState.inThen
    | _ => none
  else if item.isElse then
    match state with
    | BlockState.inThen => some BlockState.inElse
    | _ => none
  else if item.isEndIf then
    match state with
    | BlockState.outside => none
    | _ => some BlockState.outside
  else some state

/-- A sequence of lines read from a state. -/
def scanBlocks : BlockState → List Item → Option BlockState
  | state, [] => some state
  | state, item :: rest =>
    match blockStep state item with
    | some next => scanBlocks next rest
    | none => none

/-- The conditional blocks of a sequence of lines are well formed and not nested:
read from outside of every block, every line is allowed where it stands and the end
is outside of every block again. -/
def wellNested (items : List Item) : Prop :=
  scanBlocks BlockState.outside items = some BlockState.outside

/-- The number of lines that open a conditional. -/
def countIf (items : List Item) : Nat := items.countP Item.isIf

/-- The number of `fi` lines. -/
def countEndIf (items : List Item) : Nat := items.countP Item.isEndIf

/-- A text is one line: it ends with a line feed and has no other line feed. -/
def IsLine (text : Str) : Prop :=
  ∃ body : Str, text = body ++ [0x0a] ∧ 0x0a ∉ body

/-- An artifact rule with the path `log/*.txt` and `untracked` set. -/
def logRule : List (Str × Value) :=
  [(lit "paths", Value.list [Value.str (lit "log/*.txt")]), (lit "untracked", Value.bool true)]

/-- The sample job with the fetch allowed. -/
def fetchInfo : ShellScriptInfo Unit :=
  { sampleInfo with Build := { sampleInfo.Build with AllowGitFetch := true } }

/-- The lines of the assembled script, for the variable list and the text of the
pre-build phase: the shebang, a blank line, one `export` line for every variable,
`set -eo pipefail`, and the three `: | eval` lines with a bare `echo` between them. -/
def scriptLines {ρ : Type} (D : Deps ρ) (info : ShellScriptInfo ρ) (vars : List Str)
    (pre : Str) : List Str :=
  [lit "#!/usr/bin/env bash\n", lit "\n"]
    ++ vars.map (fun keyValue => commandLine D (lit "export") [keyValue])
    ++ [lit "set -eo pipefail\n", evalLine D pre, lit "echo\n",
        evalLine D (generateCommands D info), lit "echo\n",
        evalLine D (generatePostBuildScript D info)]

/-- The Go expression `a + b + ...` on texts: the texts of a list one after the other. -/
def concatAll : List Str → Str
  | [] => []
  | l :: rest => l ++ concatAll rest

/-- A sample escaping primitive that never writes a line feed, the quoting `$'...'` of
bash: a line feed is written as backslash and `n`, a single quote and a backslash
with a backslash before them. -/
def ansiEscape (s : Str) : Str :=
  lit "$'" ++
    s.flatMap (fun b =>
      if b = 0x0a then lit "\\n"
      else if b = 0x27 then lit "\\'"
      else if b = 0x5c then lit "\\\\"
      else [b])
    ++ lit "'"

/-- The sample values with `ansiEscape` as the escaping primitive. -/
def lineDeps : Deps Unit :=
  { sampleDeps with ShellEscape := ansiEscape }

/-- The sample job run for a user and with a shell type. -/
def jobFor (user : Option Str) (typ : ShellType) : ShellScriptInfo Unit :=
  { sampleInfo with User := user, Typ := typ }

/-- The sample job with the token `other`. -/
def otherTokenInfo : ShellScriptInfo Unit :=
  { sampleInfo with Build := { sampleInfo.Build with Token := lit "other" } }

/-- Sample values in which the code outside of the file uses the token: the project
directory has the token in its name and the variable list starts with the token. -/
def tokenDeps : Deps Unit :=
  { sampleDeps with
    FullProjectDir := fun build => lit "/builds/" ++ build.Token
    GetVariables := fun build _ env => (lit "CI_BUILD_TOKEN=" ++ build.Token) :: env }

/-- The reading of an export line that leaves the word `export` as it is: `export `,
the escaped token of the entry, a line feed. -/
def exportLineLiteral {ρ : Type} (D : Deps ρ) (keyValue : Str) : Str :=
  lit "export " ++ D.ShellEscape keyValue ++ lit "\n"

/-- The command and the arguments that run the script, for a user and a shell type. -/
def invocation (user : Option Str) (typ : ShellType) : Str × List Str :=
  match user with
  | some u =>
    (lit "su",
      if typ = ShellType.LoginShell then [lit "--shell", lit "/bin/bash", lit "--login", u]
      else [lit "--shell", lit "/bin/bash", u])
  | none => (lit "bash", if typ = ShellType.LoginShell then [lit "--login"] else [])

/-- The text of the script before the `: | eval` line of the post-build phase, for the
text of the pre-build phase. -/
def scriptFront {ρ : Type} (D : Deps ρ) (info : ShellScriptInfo ρ) (pre : Str) : Str :=
  lit "#!/usr/bin/env bash\n\n" ++ generateExports D info ++ lit "set -eo pipefail\n"
    ++ evalLine D pre ++ lit "echo\n" ++ evalLine D (generateCommands D info) ++ lit "echo\n"

/-! ## The emitters write lines -/

section Lemmas

variable {ρ : Type} (D : Deps ρ)

theorem foldl_snoc_map {α β : Type} (f : α → β) (xs : List α) (init : List β) :
    xs.foldl (fun acc x => acc ++ [f x]) init = init ++ xs.map f := by
  induction xs generalizing init with
  | nil => simp
  | cons x xs ih => simp [ih]

theorem executeCommand_eq (w cmd : Str) (arguments : List Str) :
    executeCommand D w cmd arguments = w ++ commandLine D cmd arguments := by
  simp [executeCommand, commandLine, ioWriteString, foldl_snoc_map]

theorem renderItems_append (xs ys : List Item) :
    renderItems D (xs ++ ys) = renderItems D xs ++ renderItems D ys := by
  induction xs with
  | nil => rfl
  | cons x xs ih => simp [renderItems, ih]

theorem executeCommand_item (w cmd : Str) (arguments : List Str) :
    executeCommand D w cmd arguments = w ++ renderItems D [Item.command cmd arguments] := by
  simp [executeCommand_eq, renderItems, Item.render]

theorem echoColored_item (w text : Str) :
    echoColored D w text = w ++ renderItems D [echoItem D text] := by
  simp [echoColored, echoItem, executeCommand_item]

theorem writeCdBuildDir_item (w : Str) (info : ShellScriptInfo ρ) :
    writeCdBuildDir D w info = w ++ renderItems D [cdItem D info] := by
  simp [writeCdBuildDir, cdItem, executeCommand_item]

theorem writeIfDirectory_item (w directory : Str) :
    writeIfDirectory D w directory = w ++ renderItems D [Item.ifDirectory directory] := by
  simp only [writeIfDirectory, executeCommandFormat, ioWriteString, renderItems, Item.render,
    List.append_nil]
  rfl

theorem writeIfFile_item (w file : Str) :
    writeIfFile D w file = w ++ renderItems D [Item.ifFile file] := by
  simp only [writeIfFile, executeCommandFormat, ioWriteString, renderItems, Item.render,
    List.append_nil]
  rfl

theorem writeElse_item (w : Str) : writeElse D w = w ++ renderItems D [Item.elseMark] := by
  simp only [writeElse, executeCommandFormat, ioWriteString, renderItems, Item.render,
    List.append_nil]
  rfl

theorem writeEndIf_item (w : Str) : writeEndIf D w = w ++ renderItems D [Item.endIf] := by
  simp only [writeEndIf, executeCommandFormat, ioWriteString, renderItems, Item.render,
    List.append_nil]
  rfl

theorem writeCloneCmd_items (w : Str) (build : Build ρ) (projectDir : Str) :
    writeCloneCmd D w build projectDir = w ++ renderItems D (cloneItems D build projectDir) := by
  have hs : sprintf D.quoteTail (lit "Cloning repository...") [] = lit "Cloning repository..." :=
    rfl
  simp only [writeCloneCmd, echoColoredFormat, hs, echoColored_item, executeCommand_item,
    cloneItems, renderItems, List.append_assoc, List.append_nil]

theorem writeFetchCmd_items (w : Str) (build : Build ρ) (projectDir gitDir : Str) :
    writeFetchCmd D w build projectDir gitDir =
      w ++ renderItems D
        ([Item.ifDirectory gitDir] ++ fetchItems D build projectDir ++ [Item.elseMark]
          ++ cloneItems D build projectDir ++ [Item.endIf]) := by
  have hs : sprintf D.quoteTail (lit "Fetching changes...") [] = lit "Fetching changes..." := rfl
  simp only [writeFetchCmd, echoColoredFormat, hs, echoColored_item, executeCommand_item,
    writeIfDirectory_item, writeElse_item, writeEndIf_item, writeCloneCmd_items,
    fetchItems, renderItems_append, renderItems, List.append_assoc, List.append_nil]

theorem writeCheckoutCmd_items (w : Str) (build : Build ρ) (h : 8 ≤ build.Sha.length) :
    writeCheckoutCmd D w build = some (w ++ renderItems D (checkoutItems D build)) := by
  have hs : ∀ a b : Str, sprintf D.quoteTail (lit "Checking out %s as %s...") [a, b]
      = lit "Checking out " ++ (a ++ (lit " as " ++ (b ++ lit "..."))) := fun _ _ => rfl
  simp [writeCheckoutCmd, goSlice, h, echoColoredFormat, hs, echoColored_item,
    executeCommand_item, checkoutItems, renderItems]

theorem writeCheckoutCmd_short (w : Str) (build : Build ρ) (h : build.Sha.length < 8) :
    writeCheckoutCmd D w build = none := by
  have h1 : ¬ 8 ≤ build.Sha.length := by omega
  simp [writeCheckoutCmd, goSlice, h1]

theorem generatePreBuildScript_long (info : ShellScriptInfo ρ) (h : 8 ≤ info.Build.Sha.length) :
    generatePreBuildScript D info =
      some (renderItems D (syncItems D info ++ checkoutItems D info.Build)) := by
  unfold generatePreBuildScript
  simp only [Option.bind_eq_bind, Option.pure_def, writeCheckoutCmd_items D _ _ h,
    syncItems, hostItem, gitDirOf]
  by_cases hh : info.Build.Hostname.length ≠ 0 <;> cases hf : info.Build.AllowGitFetch <;>
    simp [hh, executeCommand_item, writeFetchCmd_items, writeCloneCmd_items,
      renderItems_append, renderItems]

theorem generatePreBuildScript_short (info : ShellScriptInfo ρ) (h : info.Build.Sha.length < 8) :
    generatePreBuildScript D info = none := by
  unfold generatePreBuildScript
  simp [writeCheckoutCmd_short D _ _ h]

theorem GenerateScript_short (info : ShellScriptInfo ρ) (h : info.Build.Sha.length < 8) :
    GenerateScript D info = none := by
  unfold GenerateScript
  simp [generatePreBuildScript_short D info h]

theorem GenerateScript_long (info : ShellScriptInfo ρ) (h : 8 ≤ info.Build.Sha.length) :
    ∃ doc, GenerateScript D info = some doc := by
  unfold GenerateScript
  simp only [generatePreBuildScript_long D info h, Option.bind_eq_bind, Option.some_bind,
    Option.pure_def]
  cases info.User <;> by_cases ht : info.Typ = ShellType.LoginShell <;> simp [ht]

theorem GenerateScript_value (info : ShellScriptInfo ρ) :
    GenerateScript D info =
      (generatePreBuildScript D info).map (fun pre =>
        { Environment := D.GetVariables info.Build (fullProjectDir D info) info.Environment
          Script := scriptFront D info pre ++ evalLine D (generatePostBuildScript D info)
          Command := (invocation info.User info.Typ).1
          Arguments := (invocation info.User info.Typ).2 }) := by
  unfold GenerateScript
  cases generatePreBuildScript D info with
  | none => rfl
  | some pre =>
    simp only [ioWriteString, Option.bind_eq_bind, Option.some_bind, Option.pure_def,
      List.nil_append, Option.map_some']
    cases hu : info.User <;> by_cases ht : info.Typ = ShellType.LoginShell <;>
      simp [hu, ht, invocation, scriptFront, evalLine]

end Lemmas

/-! ## The assembled script and its invocation -/

section Assembly

variable {ρ : Type} (D : Deps ρ)

/-- Claim C1. For every job description on which `GenerateScript` returns a script
document, the pre-build builder returned a text `pre`, and the script is exactly the
shebang and the blank line, the output of `generateExports`, `set -eo pipefail`, then
`: | eval` with the escaped pre-build text, `echo`, `: | eval` with the escaped
command text, `echo`, and `: | eval` with the escaped post-build text, each of the
three `eval` lines ended by a line feed; nothing else, in this order. -/
theorem GenerateScript_script (info : ShellScriptInfo ρ) (doc : ShellScript)
    (h : GenerateScript D info = some doc) :
    ∃ pre, generatePreBuildScript D info = some pre ∧
      doc.Script =
        lit "#!/usr/bin/env bash\n\n" ++ generateExports D info ++ lit "set -eo pipefail\n"
          ++ lit ": | eval " ++ D.ShellEscape pre ++ lit "\n"
          ++ lit "echo\n"
          ++ lit ": | eval " ++ D.ShellEscape (generateCommands D info) ++ lit "\n"
          ++ lit "echo\n"
          ++ lit ": | eval " ++ D.ShellEscape (generatePostBuildScript D info) ++ lit "\n" := by
  unfold GenerateScript at h
  cases hpre : generatePreBuildScript D info with
  | none => simp [hpre] at h
  | some pre =>
    refine ⟨pre, rfl, ?_⟩
    simp only [hpre, ioWriteString, Option.bind_eq_bind, Option.some_bind, Option.pure_def,
      List.nil_append] at h
    cases hu : info.User <;> by_cases ht : info.Typ = ShellType.LoginShell <;>
      simp only [hu, ht, if_true, if_false, Option.some.injEq] at h <;>
      subst h <;> simp

/-- The script of the sample job has the layout of claim C1. -/
theorem GenerateScript_script_witness :
    ∃ doc pre, GenerateScript sampleDeps sampleInfo = some doc ∧
      generatePreBuildScript sampleDeps sampleInfo = some pre ∧
      doc.Script =
        lit "#!/usr/bin/env bash\n\n" ++ generateExports sampleDeps sampleInfo
          ++ lit "set -eo pipefail\n"
          ++ lit ": | eval " ++ sampleEscape pre ++ lit "\n"
          ++ lit "echo\n"
          ++ lit ": | eval " ++ sampleEscape (generateCommands sampleDeps sampleInfo) ++ lit "\n"
          ++ lit "echo\n"
          ++ lit ": | eval " ++ sampleEscape (generatePostBuildScript sampleDeps sampleInfo)
          ++ lit "\n" := by
  obtain ⟨doc, hdoc⟩ := GenerateScript_long sampleDeps sampleInfo (by decide)
  obtain ⟨pre, hpre, hscript⟩ := GenerateScript_script sampleDeps sampleInfo doc hdoc
  exact ⟨doc, pre, hdoc, hpre, hscript⟩

/-- Claim C3, at the failing input. For the sample job with the three-byte commit
`abc`, whatever the escaping primitive and the other outside code are,
`GenerateScript` does not return: the slice `build.Sha[0:8]` of `writeCheckoutCmd`
panics. -/
theorem GenerateScript_short_sha_panics :
    ∀ D : Deps Unit,
      GenerateScript D { sampleInfo with Build := { sampleInfo.Build with Sha := lit "abc" } }
        = none := by
  intro D
  exact GenerateScript_short D _ (by decide)

/-- Claim C4. For every job description whose commit has at least eight bytes,
`GenerateScript` returns a document, and its invocation is decided by the user and
the shell type alone: with a user `u` the command is `su` and the arguments are
`--shell /bin/bash --login u` for a login shell and `--shell /bin/bash u` otherwise;
without user the command is `bash` and the arguments are `--login` for a login shell
and none otherwise. -/
theorem GenerateScript_invocation (info : ShellScriptInfo ρ)
    (h : 8 ≤ info.Build.Sha.length) :
    ∃ doc, GenerateScript D info = some doc ∧
      (∀ u, info.User = some u →
        doc.Command = lit "su" ∧
        doc.Arguments =
          (if info.Typ = ShellType.LoginShell then
            [lit "--shell", lit "/bin/bash", lit "--login", u]
          else [lit "--shell", lit "/bin/bash", u])) ∧
      (info.User = none →
        doc.Command = lit "bash" ∧
        doc.Arguments = (if info.Typ = ShellType.LoginShell then [lit "--login"] else [])) := by
  obtain ⟨doc, hdoc⟩ := GenerateScript_long D info h
  refine ⟨doc, hdoc, ?_⟩
  unfold GenerateScript at hdoc
  cases hpre : generatePreBuildScript D info with
  | none => simp [hpre] at hdoc
  | some pre =>
    simp only [hpre, Option.bind_eq_bind, Option.some_bind, Option.pure_def] at hdoc
    cases hu : info.User <;> by_cases ht : info.Typ = ShellType.LoginShell <;>
      simp only [hu, ht, if_true, if_false, Option.some.injEq] at hdoc <;>
      subst hdoc <;> simp [ht]

/-- The sample job in the four cases: a user with a login shell and without, no user
with a login shell and without. Each time a document is returned, with `su` or
`bash` and the arguments of the case. -/
theorem GenerateScript_invocation_witness :
    (∃ doc, GenerateScript sampleDeps (jobFor (some (lit "ci")) ShellType.LoginShell) = some doc ∧
        doc.Command = lit "su" ∧
        doc.Arguments = [lit "--shell", lit "/bin/bash", lit "--login", lit "ci"]) ∧
      (∃ doc, GenerateScript sampleDeps (jobFor (some (lit "ci")) ShellType.NormalShell)
          = some doc ∧
        doc.Command = lit "su" ∧ doc.Arguments = [lit "--shell", lit "/bin/bash", lit "ci"]) ∧
      (∃ doc, GenerateScript sampleDeps (jobFor none ShellType.LoginShell) = some doc ∧
        doc.Command = lit "bash" ∧ doc.Arguments = [lit "--login"]) ∧
      (∃ doc, GenerateScript sampleDeps (jobFor none ShellType.NormalShell) = some doc ∧
        doc.Command = lit "bash" ∧ doc.Arguments = []) := by
  refine ⟨?_, ?_, ?_, ?_⟩
  · obtain ⟨doc, hdoc, hsu, -⟩ :=
      GenerateScript_invocation sampleDeps (jobFor (some (lit "ci")) ShellType.LoginShell)
        (by decide)
    exact ⟨doc, hdoc, (hsu (lit "ci") rfl).1, (hsu (lit "ci") rfl).2⟩
  · obtain ⟨doc, hdoc, hsu, -⟩ :=
      GenerateScript_invocation sampleDeps (jobFor (some (lit "ci")) ShellType.NormalShell)
        (by decide)
    exact ⟨doc, hdoc, (hsu (lit "ci") rfl).1, (hsu (lit "ci") rfl).2⟩
  · obtain ⟨doc, hdoc, -, hbash⟩ :=
      GenerateScript_invocation sampleDeps (jobFor none ShellType.LoginShell) (by decide)
    exact ⟨doc, hdoc, (hbash rfl).1, (hbash rfl).2⟩
  · obtain ⟨doc, hdoc, -, hbash⟩ :=
      GenerateScript_invocation sampleDeps (jobFor none ShellType.NormalShell) (by decide)
    exact ⟨doc, hdoc, (hbash rfl).1, (hbash rfl).2⟩

end Assembly

/-! ## The pre-build phase -/

section PreBuild

variable {ρ : Type} (D : Deps ρ)

/-- Claim C5. For a job whose commit has at least eight bytes (so that the builder
returns), the pre-build script is the text of these lines. With `AllowGitFetch`: the
host line, one conditional `if [[ -d %q ]]; then` on `filepath.Join(project dir,
".git")`, the fetch lines, `else`, the clone lines, `fi`, the checkout lines; the
then-branch has the line `git fetch origin` and no `git clone` line, the else-branch
has the line `git clone <RepoURL> <project dir>` and no `git fetch` line, and no
other line opens, continues or closes a conditional. Without `AllowGitFetch`: the
host line, the clone lines, the checkout lines, with no conditional line and no
`git fetch` line, and `rm -rf <dir>`, `mkdir -p <dir>`, `git clone <RepoURL> <dir>`
follow one another in this order. Every argument is written as its escaped token. -/
theorem generatePreBuildScript_branches (info : ShellScriptInfo ρ)
    (h : 8 ≤ info.Build.Sha.length) :
    (info.Build.AllowGitFetch = true →
      generatePreBuildScript D info =
        some (renderItems D
          (hostItem info.Build :: Item.ifDirectory (gitDirOf D info) ::
            (fetchItems D info.Build (fullProjectDir D info) ++ Item.elseMark ::
              (cloneItems D info.Build (fullProjectDir D info) ++ Item.endIf ::
                checkoutItems D info.Build)))) ∧
      Item.command (lit "git") [lit "fetch", lit "origin"]
        ∈ fetchItems D info.Build (fullProjectDir D info) ∧
      (∀ item ∈ fetchItems D info.Build (fullProjectDir D info),
        item.isGit (lit "clone") = false ∧ item.isControl = false) ∧
      Item.command (lit "git") [lit "clone", info.Build.RepoURL, fullProjectDir D info]
        ∈ cloneItems D info.Build (fullProjectDir D info) ∧
      (∀ item ∈ cloneItems D info.Build (fullProjectDir D info),
        item.isGit (lit "fetch") = false ∧ item.isControl = false) ∧
      (∀ item ∈ hostItem info.Build :: checkoutItems D info.Build,
        item.isGit (lit "fetch") = false ∧ item.isGit (lit "clone") = false ∧
          item.isControl = false)) ∧
    (info.Build.AllowGitFetch = false →
      generatePreBuildScript D info =
        some (renderItems D
          (hostItem info.Build ::
            (cloneItems D info.Build (fullProjectDir D info) ++ checkoutItems D info.Build))) ∧
      (∀ item ∈ hostItem info.Build ::
            (cloneItems D info.Build (fullProjectDir D info) ++ checkoutItems D info.Build),
        item.isGit (lit "fetch") = false ∧ item.isControl = false) ∧
      [Item.command (lit "rm") [lit "-rf", fullProjectDir D info],
        Item.command (lit "mkdir") [lit "-p", fullProjectDir D info],
        Item.command (lit "git") [lit "clone", info.Build.RepoURL, fullProjectDir D info]]
        <:+: cloneItems D info.Build (fullProjectDir D info)) := by
  have hgit : (lit "git" == lit "git") = true := by decide
  have hecho : (lit "echo" == lit "git") = false := by decide
  have hrm : (lit "rm" == lit "git") = false := by decide
  have hmkdir : (lit "mkdir" == lit "git") = false := by decide
  have hcd : (lit "cd" == lit "git") = false := by decide
  have h1 : (lit "clean" == lit "clone") = false := by decide
  have h2 : (lit "reset" == lit "clone") = false := by decide
  have h3 : (lit "remote" == lit "clone") = false := by decide
  have h4 : (lit "fetch" == lit "clone") = false := by decide
  have h5 : (lit "clone" == lit "fetch") = false := by decide
  have h6 : (lit "checkout" == lit "fetch") = false := by decide
  have h7 : (lit "checkout" == lit "clone") = false := by decide
  have hhost : (hostItem info.Build).isGit (lit "fetch") = false ∧
      (hostItem info.Build).isGit (lit "clone") = false ∧
      (hostItem info.Build).isControl = false := by
    unfold hostItem
    split <;> simp [Item.isGit, Item.isControl, Item.isIf, Item.isElse, Item.isEndIf, hecho]
  constructor
  · intro hf
    refine ⟨?_, ?_, ?_, ?_, ?_, ?_⟩
    · rw [generatePreBuildScript_long D info h]
      simp [syncItems, hf]
    · simp [fetchItems]
    · intro item hitem
      simp only [fetchItems, echoItem, List.mem_cons, List.mem_singleton, List.not_mem_nil,
        or_false] at hitem
      rcases hitem with rfl | rfl | rfl | rfl | rfl | rfl <;>
        simp [Item.isGit, Item.isControl, Item.isIf, Item.isElse, Item.isEndIf, hecho, hcd, hgit,
          h1, h2, h3, h4]
    · simp [cloneItems]
    · intro item hitem
      simp only [cloneItems, echoItem, List.mem_cons, List.mem_singleton, List.not_mem_nil,
        or_false] at hitem
      rcases hitem with rfl | rfl | rfl | rfl | rfl <;>
        simp [Item.isGit, Item.isControl, Item.isIf, Item.isElse, Item.isEndIf, hecho, hcd, hgit,
          hrm, hmkdir, h5]
    · intro item hitem
      simp only [checkoutItems, echoItem, List.mem_cons, List.mem_singleton, List.not_mem_nil,
        or_false] at hitem
      rcases hitem with rfl | rfl | rfl
      · exact hhost
      · simp [Item.isGit, Item.isControl, Item.isIf, Item.isElse, Item.isEndIf, hecho]
      · simp [Item.isGit, Item.isControl, Item.isIf, Item.isElse, Item.isEndIf, hgit, h6, h7]
  · intro hf
    refine ⟨?_, ?_, ?_⟩
    · rw [generatePreBuildScript_long D info h]
      simp [syncItems, hf]
    · intro item hitem
      simp only [cloneItems, checkoutItems, echoItem, List.mem_cons, List.mem_singleton,
        List.not_mem_nil, or_false, List.cons_append, List.nil_append] at hitem
      rcases hitem with rfl | rfl | rfl | rfl | rfl | rfl | rfl | rfl
      · exact ⟨hhost.1, hhost.2.2⟩
      all_goals
        simp [Item.isGit, Item.isControl, Item.isIf, Item.isElse, Item.isEndIf, hecho, hcd, hgit,
          hrm, hmkdir, h5, h6]
    · exact ⟨[echoItem D (lit "Cloning repository...")],
        [Item.command (lit "cd") [fullProjectDir D info]], rfl⟩

/-- The sample job does not allow the fetch: its pre-build script is the host line,
the clone lines and the checkout lines. -/
theorem generatePreBuildScript_branches_witness :
    8 ≤ sampleInfo.Build.Sha.length ∧
      generatePreBuildScript sampleDeps sampleInfo =
        some (renderItems sampleDeps
          (hostItem sampleInfo.Build ::
            (cloneItems sampleDeps sampleInfo.Build (fullProjectDir sampleDeps sampleInfo)
              ++ checkoutItems sampleDeps sampleInfo.Build))) :=
  ⟨by decide,
    ((generatePreBuildScript_branches sampleDeps sampleInfo (by decide)).2 rfl).1⟩

/-- Claim C6. For every job whose commit has at least eight bytes, with or without
`AllowGitFetch`, the pre-build script ends with two lines: the bold-green echo of
`Checking out <first eight bytes of Sha> as <RefName>...`, and after it, as the last
line, `git checkout` with the escaped token of the whole `Sha` as its only further
argument; the ref name is no argument of the checkout. -/
theorem generatePreBuildScript_checkout (info : ShellScriptInfo ρ)
    (h : 8 ≤ info.Build.Sha.length) :
    generatePreBuildScript D info =
      some (renderItems D
        (syncItems D info ++
          [echoItem D
              (lit "Checking out " ++ info.Build.Sha.take 8 ++ lit " as " ++ info.Build.RefName
                ++ lit "..."),
            Item.command (lit "git") [lit "checkout", info.Build.Sha]])) := by
  rw [generatePreBuildScript_long D info h]
  rfl

/-- The job of the specification with the commit `abcdef1234567890`: the narration
shows `abcdef12`, the checkout takes the whole commit. -/
theorem generatePreBuildScript_checkout_witness :
    8 ≤ (lit "abcdef1234567890").length ∧
      generatePreBuildScript sampleDeps
          { sampleInfo with Build := { sampleInfo.Build with Sha := lit "abcdef1234567890" } } =
        some (renderItems sampleDeps
          (syncItems sampleDeps sampleInfo ++
            [echoItem sampleDeps (lit "Checking out abcdef12 as main..."),
              Item.command (lit "git") [lit "checkout", lit "abcdef1234567890"]])) :=
  ⟨by decide,
    generatePreBuildScript_checkout sampleDeps
      { sampleInfo with Build := { sampleInfo.Build with Sha := lit "abcdef1234567890" } }
      (by decide)⟩

end PreBuild

/-! ## The command phase and the exports -/

section Commands

variable {ρ : Type} (D : Deps ρ)

theorem foldl_items (step : Str → Str → Str) (g : Str → Str) (f : Str → List Item)
    (hstep : ∀ w l, step w l = w ++ renderItems D (f (g l))) (ls : List Str) (w : Str) :
    ls.foldl step w = w ++ renderItems D ((ls.map g).flatMap f) := by
  induction ls generalizing w with
  | nil => simp [renderItems]
  | cons l ls ih => simp [ih, hstep, renderItems_append]

theorem commandStep_narrated (info : ShellScriptInfo ρ)
    (h : BoolOrDefault info.Build.Runner.DisableVerbose false = false) (w l : Str) :
    commandStep D info w l = w ++ renderItems D (narratedItems D (stringsTrimSpace l)) := by
  unfold commandStep narratedItems
  by_cases hl : stringsTrimSpace l = [] <;>
    simp [h, hl, echoColored_item, executeCommand_item, ioWriteString, renderItems, Item.render]

theorem commandStep_quiet (info : ShellScriptInfo ρ)
    (h : BoolOrDefault info.Build.Runner.DisableVerbose false = true) (w l : Str) :
    commandStep D info w l = w ++ renderItems D [Item.verbatim (stringsTrimSpace l)] := by
  unfold commandStep
  simp [h, ioWriteString, renderItems, Item.render]

theorem generateCommands_narrated (info : ShellScriptInfo ρ)
    (h : BoolOrDefault info.Build.Runner.DisableVerbose false = false) :
    generateCommands D info =
      renderItems D
        (cdItem D info :: (trimmedLines info.Build.Commands).flatMap (narratedItems D)) := by
  unfold generateCommands trimmedLines
  simp only [foldl_items D _ stringsTrimSpace (narratedItems D) (commandStep_narrated D info h),
    writeCdBuildDir_item, List.nil_append]
  rw [← renderItems_append]
  rfl

theorem generateCommands_quiet (info : ShellScriptInfo ρ)
    (h : BoolOrDefault info.Build.Runner.DisableVerbose false = true) :
    generateCommands D info =
      renderItems D (cdItem D info :: (trimmedLines info.Build.Commands).map Item.verbatim) := by
  unfold generateCommands trimmedLines
  simp only [foldl_items D _ stringsTrimSpace (fun l => [Item.verbatim l])
    (commandStep_quiet D info h), writeCdBuildDir_item, List.nil_append]
  rw [← renderItems_append]
  congr 1
  simp only [List.singleton_append, List.cons.injEq, true_and]
  generalize (stringsSplit 0x0a (stringsTrimSpace info.Build.Commands)).map stringsTrimSpace = ls
  induction ls with
  | nil => rfl
  | cons l ls ih => simp [ih]

theorem sample_trimmedLines :
    trimmedLines (lit "echo hi\n\nls") = [lit "echo hi", [], lit "ls"] := by
  decide

/-- Claim C7, as amended. With narration on (`DisableVerbose` not set, or false) the
command phase is the `cd <project dir>` line followed, for every trimmed line of the
trimmed command text, in order, by: for a line that is not empty, the bold-green echo
of `$ ` and the line, then the line as it is, unescaped; for an empty line, a bare
`echo` line and then the empty line itself, a blank line. -/
theorem generateCommands_narration (info : ShellScriptInfo ρ)
    (h : info.Build.Runner.DisableVerbose = none ∨
      info.Build.Runner.DisableVerbose = some false) :
    generateCommands D info =
      renderItems D
        (cdItem D info :: (trimmedLines info.Build.Commands).flatMap (narratedItems D)) := by
  apply generateCommands_narrated
  rcases h with h | h <;> simp [h, BoolOrDefault]

/-- The command text `echo hi`, empty line, `ls` of the sample job, narration on: the
`cd` line, the echo of `$ echo hi`, `echo hi`, a bare `echo`, a blank line, the echo of
`$ ls`, `ls`. -/
theorem generateCommands_narration_witness :
    (sampleInfo.Build.Runner.DisableVerbose = none ∨
      sampleInfo.Build.Runner.DisableVerbose = some false) ∧
    generateCommands sampleDeps sampleInfo =
      renderItems sampleDeps
        [cdItem sampleDeps sampleInfo,
          echoItem sampleDeps (lit "$ echo hi"), Item.verbatim (lit "echo hi"),
          Item.command (lit "echo") [], Item.verbatim [],
          echoItem sampleDeps (lit "$ ls"), Item.verbatim (lit "ls")] :=
  ⟨Or.inl rfl,
    (generateCommands_narration sampleDeps sampleInfo (Or.inl rfl)).trans
      (congrArg (fun ls => renderItems sampleDeps (cdItem sampleDeps sampleInfo ::
        ls.flatMap (narratedItems sampleDeps))) sample_trimmedLines)⟩

/-- Claim C7 as stated fails: for the command text `echo hi`, empty line, `ls` and
narration on, whatever the escaping primitive is, the command phase is not the text
that has a bare `echo` line alone for the empty line; the code writes a blank line
after it. -/
theorem generateCommands_narration_counterexample :
    ¬ ∃ D : Deps Unit,
      generateCommands D sampleInfo =
        renderItems D
          (cdItem D sampleInfo ::
            (trimmedLines sampleInfo.Build.Commands).flatMap (narratedItemsBare D)) := by
  rintro ⟨D, h⟩
  rw [generateCommands_narrated D sampleInfo rfl] at h
  have hl : trimmedLines sampleInfo.Build.Commands = [lit "echo hi", [], lit "ls"] :=
    sample_trimmedLines
  have h1 : lit "echo hi" ≠ [] := by decide
  have h2 : lit "ls" ≠ [] := by decide
  have hlen := congrArg List.length h
  simp [hl, narratedItems, narratedItemsBare, h1, h2, renderItems, Item.render] at hlen
  revert hlen
  decide

/-- Claim C8, as amended. With narration off (`DisableVerbose` true) the command
phase is the `cd <project dir>` line followed by every trimmed line of the trimmed
command text, as it is and in order, the empty lines included as blank lines; no
line is written by `executeCommand` after the `cd` line, so no echo is added. -/
theorem generateCommands_silent (info : ShellScriptInfo ρ)
    (h : info.Build.Runner.DisableVerbose = some true) :
    generateCommands D info =
      renderItems D (cdItem D info :: (trimmedLines info.Build.Commands).map Item.verbatim) := by
  apply generateCommands_quiet
  simp [h, BoolOrDefault]

/-- The command text `echo hi`, empty line, `ls`, narration off: the `cd` line,
`echo hi`, a blank line, `ls`. -/
theorem generateCommands_silent_witness :
    quietInfo.Build.Runner.DisableVerbose = some true ∧
    generateCommands sampleDeps quietInfo =
      renderItems sampleDeps
        [cdItem sampleDeps quietInfo, Item.verbatim (lit "echo hi"), Item.verbatim [],
          Item.verbatim (lit "ls")] :=
  ⟨rfl,
    (generateCommands_silent sampleDeps quietInfo rfl).trans
      (congrArg (fun ls => renderItems sampleDeps (cdItem sampleDeps quietInfo ::
        ls.map Item.verbatim)) sample_trimmedLines)⟩

/-- Claim C8 as stated fails: for the command text `echo hi`, empty line, `ls` and
narration off, whatever the escaping primitive is, the lines after the `cd` line are
not the trimmed lines that are not empty; the code writes the empty line too. -/
theorem generateCommands_silent_counterexample :
    ¬ ∃ D : Deps Unit,
      generateCommands D quietInfo =
        renderItems D
          (cdItem D quietInfo ::
            ((trimmedLines quietInfo.Build.Commands).filter (fun l => l ≠ [])).map
              Item.verbatim) := by
  rintro ⟨D, h⟩
  rw [generateCommands_quiet D quietInfo rfl] at h
  have hl : trimmedLines quietInfo.Build.Commands = [lit "echo hi", [], lit "ls"] :=
    sample_trimmedLines
  have h1 : lit "echo hi" ≠ [] := by decide
  have h2 : lit "ls" ≠ [] := by decide
  have hlen := congrArg List.length h
  simp [hl, h1, h2, renderItems, Item.render] at hlen
  revert hlen
  decide

theorem generateExports_items (info : ShellScriptInfo ρ) :
    generateExports D info =
      renderItems D
        ((D.GetVariables info.Build (fullProjectDir D info) info.Environment).map
          (fun keyValue => Item.command (lit "export") [keyValue])) := by
  unfold generateExports
  have hgen : ∀ (ls : List Str) (w : Str),
      ls.foldl (fun w keyValue => executeCommand D w (lit "export") [keyValue]) w =
        w ++ renderItems D (ls.map (fun keyValue => Item.command (lit "export") [keyValue])) := by
    intro ls
    induction ls with
    | nil => intro w; simp [renderItems]
    | cons l ls ih =>
      intro w
      rw [List.foldl_cons, ih, executeCommand_item]
      simp [renderItems]
  simpa using hgen _ []

/-- Claim C9, as amended. For the variable list `[kv1, ..., kvk]` of the producer,
`generateExports` writes exactly `k` lines, in the order of the list and without
leaving a repeated name out, and line `i` is the command `export` with one argument,
the escaped token of the whole entry `kvi` (name, `=` and value together). -/
theorem generateExports_lines (info : ShellScriptInfo ρ) :
    generateExports D info =
      renderItems D
        ((D.GetVariables info.Build (fullProjectDir D info) info.Environment).map
          (fun keyValue => Item.command (lit "export") [keyValue])) ∧
    ((D.GetVariables info.Build (fullProjectDir D info) info.Environment).map
        (fun keyValue => Item.command (lit "export") [keyValue])).length =
      (D.GetVariables info.Build (fullProjectDir D info) info.Environment).length :=
  ⟨generateExports_items D info, by simp⟩

/-- Claim C9 as stated fails: for the sample job, whose variable list is `CI=true`
and `NAME=a b`, and single quoting as the escaping primitive, the exports are the
two lines `'export' 'CI=true'` and `'export' 'NAME=a b'`: neither the lines
`export <name>=<escaped value>` nor these lines with the word `export` escaped. -/
theorem generateExports_counterexample :
    sampleDeps.GetVariables sampleInfo.Build (fullProjectDir sampleDeps sampleInfo)
        sampleInfo.Environment =
      [lit "CI" ++ lit "=" ++ lit "true", lit "NAME" ++ lit "=" ++ lit "a b"] ∧
    generateExports sampleDeps sampleInfo = lit "'export' 'CI=true'\n'export' 'NAME=a b'\n" ∧
    generateExports sampleDeps sampleInfo ≠
      exportLineByValue sampleDeps (lit "CI") (lit "true")
        ++ exportLineByValue sampleDeps (lit "NAME") (lit "a b") ∧
    generateExports sampleDeps sampleInfo ≠
      exportLineByValueEscaped sampleDeps (lit "CI") (lit "true")
        ++ exportLineByValueEscaped sampleDeps (lit "NAME") (lit "a b") := by
  decide

end Commands

/-! ## The artifact phase -/

section ArtifactLemmas

variable {ρ : Type} (D : Deps ρ)

theorem wholenameFilters_foldl (paths : List Value) (acc : List Str) :
    paths.foldl
        (fun files artifactPath =>
          match artifactPath with
          | Value.str file =>
            files ++ [lit "-wholename " ++ strconvQuote D.quoteTail (lit "./" ++ pathClean file)]
          | _ => files)
        acc =
      acc ++ (stringPaths paths).map (wholenameFilter D) := by
  induction paths generalizing acc with
  | nil => simp [stringPaths]
  | cons v rest ih =>
    cases v <;> simp [List.foldl_cons, ih, stringPaths, wholenameFilter]

theorem wholenameFilters_eq (paths : List Value) :
    wholenameFilters D paths = (stringPaths paths).map (wholenameFilter D) := by
  unfold wholenameFilters
  simpa using wholenameFilters_foldl D paths []

theorem stringPaths_map_str (paths : List Str) : stringPaths (paths.map Value.str) = paths := by
  induction paths with
  | nil => rfl
  | cons p rest ih => simp [stringPaths, ih]

theorem stringPaths_filter (entries : List Value) :
    stringPaths (entries.filter Value.isStr) = stringPaths entries := by
  induction entries with
  | nil => rfl
  | cons v rest ih => cases v <;> simp [List.filter_cons, Value.isStr, stringPaths, ih]

theorem findLine_eq (filters : List Str) (filepath : Str) :
    sprintf D.quoteTail (lit "find . %s -type f >> %q" ++ lit "\n")
        [lit "'(' " ++ stringsJoin filters (lit " -or ") ++ lit " ')'", filepath] =
      findText D filters filepath ++ lit "\n" := by
  have hs : ∀ files file : Str,
      sprintf D.quoteTail (lit "find . %s -type f >> %q" ++ lit "\n") [files, file] =
        lit "find . " ++ (files ++ (lit " -type f >> " ++ (strconvQuote D.quoteTail file
          ++ lit "\n"))) := fun _ _ => rfl
  have h1 : lit "find . '(' " = lit "find . " ++ lit "'(' " := by decide
  have h2 : lit " ')' -type f >> " = lit " ')'" ++ lit " -type f >> " := by decide
  rw [hs, findText, h1, h2]
  simp only [List.append_assoc]

theorem lsFilesLine_eq (filepath : Str) :
    sprintf D.quoteTail (lit "git ls-files -o >> %q" ++ lit "\n") [filepath] =
      lsFilesText D filepath ++ lit "\n" := by
  have hs : ∀ file : Str,
      sprintf D.quoteTail (lit "git ls-files -o >> %q" ++ lit "\n") [file] =
        lit "git ls-files -o >> " ++ (strconvQuote D.quoteTail file ++ lit "\n") := fun _ => rfl
  rw [hs, lsFilesText]
  simp only [List.append_assoc]

theorem findFiles_paths (w : Str) (paths : Option Value) (filepath : Str) :
    (match paths with
      | some (Value.list entries) =>
        if (wholenameFilters D entries).length ≠ 0 then
          executeCommandFormat D w (lit "find . %s -type f >> %q")
            [lit "'(' " ++ stringsJoin (wholenameFilters D entries) (lit " -or ") ++ lit " ')'",
              filepath]
        else w
      | _ => w) =
      w ++ renderItems D (pathsItems D paths filepath) := by
  unfold pathsItems
  split
  · rename_i entries
    rw [wholenameFilters_eq]
    by_cases hne : stringPaths entries = []
    · simp [hne, renderItems]
    · have hlen : ((stringPaths entries).map (wholenameFilter D)).length ≠ 0 := by
        simpa using hne
      simp only [hlen, hne, ne_eq, not_false_eq_true, if_true, executeCommandFormat,
        ioWriteString, findLine_eq, renderItems, Item.render, List.append_nil]
  · simp [renderItems]

theorem findFiles_untracked (w : Str) (untracked : Option Value) (filepath : Str) :
    (match untracked with
      | some (Value.bool true) =>
        executeCommandFormat D w (lit "git ls-files -o >> %q") [filepath]
      | _ => w) =
      w ++ renderItems D (untrackedItems D untracked filepath) := by
  unfold untrackedItems
  split
  · simp only [executeCommandFormat, ioWriteString, lsFilesLine_eq, renderItems, Item.render,
      List.append_nil]
  · simp [renderItems]

theorem findFiles_items (w : Str) (list : Option Value) (filepath : Str) :
    findFiles D w list filepath = w ++ renderItems D (findItems D list filepath) := by
  unfold findFiles findItems
  split
  · rename_i hash
    have h1 := findFiles_paths D w (mapIndex hash (lit "paths")) filepath
    have h2 := findFiles_untracked D (w ++ renderItems D (pathsItems D
      (mapIndex hash (lit "paths")) filepath)) (mapIndex hash (lit "untracked")) filepath
    simp only [renderItems_append, ← List.append_assoc]
    rw [← h2, ← h1]
  · simp [renderItems]

theorem generatePostBuildScript_items (info : ShellScriptInfo ρ) :
    generatePostBuildScript D info = renderItems D (postBuildItems D info) := by
  unfold generatePostBuildScript postBuildItems
  simp only [writeCdBuildDir_item, findFiles_items, writeIfFile_item, echoColored_item,
    executeCommand_item, writeEndIf_item, archiveItems, uploadItems, curlItem,
    renderItems_append, renderItems, List.append_assoc, List.append_nil, List.nil_append]

end ArtifactLemmas

section Artifacts

set_option maxRecDepth 100000 in
/-- Claim C10, at the failing input. For the artifact rule whose only path is
`$(id)`, whatever the escaping primitive and the other outside code are, `findFiles`
writes the line `find . '(' -wholename "./$(id)" ')' -type f >> "artifacts.files"`:
the text after `-wholename ` is the Go quoted string of `./$(id)`, between double
quotes and with the `$(` as it is; the escaping primitive is not applied to it. -/
theorem findFiles_quotes_path :
    ∀ D : Deps Unit,
      findFiles D [] (some substitutionRule) (lit "artifacts.files") =
        lit "find . '(' -wholename \"./$(id)\" ')' -type f >> \"artifacts.files\"\n" := by
  intro D
  rfl

end Artifacts

section ArtifactClaims

variable {ρ : Type} (D : Deps ρ)

/-- Claim C11. For an artifact rule whose `paths` are the strings `p1, ..., pn` and
whose `untracked` is a boolean, `findFiles` appends: the `find` line if and only if
there is at least one path, and then with exactly `n` filters `-wholename` and the Go
quoted `./` followed by the cleaned path, one for every path in the order of the
rule, joined by ` -or ` in one group between quoted parentheses, with the output
appended to the quoted manifest file; then the line `git ls-files -o >>` with the
quoted manifest file if and only if `untracked` is true, whether or not a path was
declared. -/
theorem findFiles_shape (w : Str) (hash : List (Str × Value)) (paths : List Str)
    (untracked : Bool) (filepath : Str)
    (hp : mapIndex hash (lit "paths") = some (Value.list (paths.map Value.str)))
    (hu : mapIndex hash (lit "untracked") = some (Value.bool untracked)) :
    findFiles D w (some (Value.map hash)) filepath =
        w ++ (if paths ≠ [] then
                findText D (paths.map (wholenameFilter D)) filepath ++ lit "\n"
              else [])
          ++ (if untracked then lsFilesText D filepath ++ lit "\n" else []) ∧
      (paths.map (wholenameFilter D)).length = paths.length := by
  refine ⟨?_, by simp⟩
  rw [findFiles_items]
  simp only [findItems, hp, hu, pathsItems, untrackedItems, stringPaths_map_str,
    renderItems_append, List.append_assoc]
  by_cases hne : paths = [] <;> cases untracked <;>
    simp [hne, renderItems, Item.render]

/-- The rule of the specification, the path `log/*.txt` with `untracked` set: the
`find` line with the filter for `./log/*.txt`, then the `git ls-files` line. -/
theorem findFiles_shape_witness :
    mapIndex logRule (lit "paths") = some (Value.list ([lit "log/*.txt"].map Value.str)) ∧
      mapIndex logRule (lit "untracked") = some (Value.bool true) ∧
      findFiles sampleDeps [] (some (Value.map logRule)) (lit "artifacts.files") =
        lit ("find . '(' -wholename \"./log/*.txt\" ')' -type f >> \"artifacts.files\"\n"
          ++ "git ls-files -o >> \"artifacts.files\"\n") :=
  ⟨rfl, rfl,
    (findFiles_shape sampleDeps [] logRule [lit "log/*.txt"] true (lit "artifacts.files")
      rfl rfl).1.trans (by decide)⟩

/-- Claim C12. For every option map the post-build script is the `cd <project dir>`
line, then what `findFiles` writes for the value under `artifacts`, then a suffix
that is built from the token, the runner configuration and the job number alone: the
archive block guarded by `if [[ -e "artifacts.files" ]]; then` and the upload block
guarded by `if [[ -e "artifacts.tgz" ]]; then`. When the option map has nothing
under `artifacts`, `findFiles` writes nothing, so the script is the `cd` line and
the two blocks. -/
theorem generatePostBuildScript_suffix (info : ShellScriptInfo ρ) :
    generatePostBuildScript D info =
        renderItems D [cdItem D info]
          ++ findFiles D [] (mapIndex info.Build.Options (lit "artifacts"))
              (lit "artifacts.files")
          ++ renderItems D
              (archiveItems D ++ uploadItems D info.Build.Token info.Build.Runner info.Build.ID) ∧
      (mapIndex info.Build.Options (lit "artifacts") = none →
        findFiles D [] (mapIndex info.Build.Options (lit "artifacts")) (lit "artifacts.files")
            = [] ∧
          generatePostBuildScript D info =
            renderItems D
              (cdItem D info ::
                (archiveItems D
                  ++ uploadItems D info.Build.Token info.Build.Runner info.Build.ID))) ∧
      (Item.ifFile (lit "artifacts.files")).render D = lit "if [[ -e \"artifacts.files\" ]]; then\n" ∧
      (Item.ifFile (lit "artifacts.tgz")).render D = lit "if [[ -e \"artifacts.tgz\" ]]; then\n" := by
  refine ⟨?_, ?_, rfl, rfl⟩
  · rw [generatePostBuildScript_items, findFiles_items]
    simp [postBuildItems, renderItems_append, renderItems]
  · intro hnone
    rw [generatePostBuildScript_items]
    simp [postBuildItems, hnone, findFiles, findItems]

/-- The sample job has no artifact option: its post-build script is the `cd` line,
the archive block and the upload block. -/
theorem generatePostBuildScript_suffix_witness :
    mapIndex sampleInfo.Build.Options (lit "artifacts") = none ∧
      generatePostBuildScript sampleDeps sampleInfo =
        renderItems sampleDeps
          (cdItem sampleDeps sampleInfo ::
            (archiveItems sampleDeps
              ++ uploadItems sampleDeps sampleInfo.Build.Token sampleInfo.Build.Runner
                  sampleInfo.Build.ID)) :=
  ⟨rfl, ((generatePostBuildScript_suffix sampleDeps sampleInfo).2.1 rfl).2⟩

/-- Claim C13. A malformed artifact configuration writes nothing and never fails.
(i) When the value under `artifacts` is absent or is no map (a string, a boolean, a
list, any other value), `findFiles` leaves the buffer as it is. (ii) For a map,
`findFiles` appends the lines for the value under `paths` and then the lines for the
value under `untracked`, each decided by its own value alone; a `paths` that is no
list gives no line, an `untracked` that is no boolean gives no line, as does `false`.
(iii) For every path list, the lines are those of the list with the entries that
are no strings removed: the string entries keep their order. -/
theorem findFiles_lenient (w : Str) (filepath : Str) :
    (findFiles D w none filepath = w ∧
      (∀ s, findFiles D w (some (Value.str s)) filepath = w) ∧
      (∀ b, findFiles D w (some (Value.bool b)) filepath = w) ∧
      (∀ l, findFiles D w (some (Value.list l)) filepath = w) ∧
      findFiles D w (some Value.other) filepath = w) ∧
    (∀ hash : List (Str × Value),
      findFiles D w (some (Value.map hash)) filepath =
        w ++ renderItems D (pathsItems D (mapIndex hash (lit "paths")) filepath)
          ++ renderItems D (untrackedItems D (mapIndex hash (lit "untracked")) filepath)) ∧
    (pathsItems D none filepath = [] ∧
      (∀ s, pathsItems D (some (Value.str s)) filepath = []) ∧
      (∀ b, pathsItems D (some (Value.bool b)) filepath = []) ∧
      (∀ m, pathsItems D (some (Value.map m)) filepath = []) ∧
      pathsItems D (some Value.other) filepath = []) ∧
    (untrackedItems D none filepath = [] ∧
      (∀ s, untrackedItems D (some (Value.str s)) filepath = []) ∧
      (∀ l, untrackedItems D (some (Value.list l)) filepath = []) ∧
      (∀ m, untrackedItems D (some (Value.map m)) filepath = []) ∧
      untrackedItems D (some Value.other) filepath = [] ∧
      untrackedItems D (some (Value.bool false)) filepath = []) ∧
    (∀ entries : List Value,
      wholenameFilters D entries = wholenameFilters D (entries.filter Value.isStr) ∧
        wholenameFilters D entries = (stringPaths entries).map (wholenameFilter D) ∧
        pathsItems D (some (Value.list entries)) filepath =
          pathsItems D (some (Value.list (entries.filter Value.isStr))) filepath) := by
  refine ⟨⟨rfl, fun _ => rfl, fun _ => rfl, fun _ => rfl, rfl⟩, ?_,
    ⟨rfl, fun _ => rfl, fun _ => rfl, fun _ => rfl, rfl⟩,
    ⟨rfl, fun _ => rfl, fun _ => rfl, fun _ => rfl, rfl, rfl⟩, ?_⟩
  · intro hash
    rw [findFiles_items]
    simp [findItems, renderItems_append]
  · intro entries
    refine ⟨?_, wholenameFilters_eq D entries, ?_⟩
    · rw [wholenameFilters_eq, wholenameFilters_eq, stringPaths_filter]
    · simp [pathsItems, stringPaths_filter]

theorem phases_without_token (info : ShellScriptInfo ρ) (token : Str)
    (hdir : D.FullProjectDir { info.Build with Token := token } = D.FullProjectDir info.Build) :
    generatePreBuildScript D { info with Build := { info.Build with Token := token } } =
        generatePreBuildScript D info ∧
      generateCommands D { info with Build := { info.Build with Token := token } } =
        generateCommands D info ∧
      cdItem D { info with Build := { info.Build with Token := token } } = cdItem D info := by
  have hstep : commandStep D { info with Build := { info.Build with Token := token } } =
      commandStep D info := by
    funext w command
    simp [commandStep]
  refine ⟨?_, ?_, ?_⟩
  · simp [generatePreBuildScript, writeFetchCmd, writeCloneCmd, writeCheckoutCmd, fullProjectDir,
      hdir]
  · simp [generateCommands, hstep, writeCdBuildDir, fullProjectDir, hdir]
  · simp [cdItem, fullProjectDir, hdir]

/-- Claim C14, as amended. The upload command of the post-build script is `curl -s -S
--fail --retry 3 -X POST -# -o artifacts.upload.log -H` with the escaped token of
`BUILD-TOKEN: ` followed by the job token, `-F file=@artifacts.tgz`, and as last
argument the upload address, which is computed from the runner configuration and the
job number. For two job descriptions that differ in the token only, provided the
project directory and the variable list, which code outside of this file computes
from the whole build, are the same for the two: the exports, the pre-build phases and
the command phases are the same, the post-build phases are the same lines except for
the argument after `-H` of that command, and when a document is returned for one
job, one is returned for the other, with the same environment and invocation and with
a script that differs in the post-build phase only. -/
theorem token_in_header_only (info : ShellScriptInfo ρ) (token : Str)
    (hdir : D.FullProjectDir { info.Build with Token := token } = D.FullProjectDir info.Build)
    (hvars : D.GetVariables { info.Build with Token := token } (fullProjectDir D info)
        info.Environment =
      D.GetVariables info.Build (fullProjectDir D info) info.Environment) :
    generateExports D { info with Build := { info.Build with Token := token } } =
        generateExports D info ∧
      generatePreBuildScript D { info with Build := { info.Build with Token := token } } =
        generatePreBuildScript D info ∧
      generateCommands D { info with Build := { info.Build with Token := token } } =
        generateCommands D info ∧
      generatePostBuildScript D info =
        renderItems D
          (cdItem D info ::
            (findItems D (mapIndex info.Build.Options (lit "artifacts")) (lit "artifacts.files")
              ++ archiveItems D
              ++ [Item.ifFile (lit "artifacts.tgz"), echoItem D (lit "Uploading artifacts..."),
                  Item.command (lit "du") [lit "-h", lit "artifacts.tgz"],
                  Item.command (lit "curl")
                    [lit "-s", lit "-S", lit "--fail", lit "--retry", lit "3", lit "-X",
                     lit "POST", lit "-#", lit "-o", lit "artifacts.upload.log",
                     lit "-H", lit "BUILD-TOKEN: " ++ info.Build.Token,
                     lit "-F", lit "file=@artifacts.tgz",
                     D.GetArtifactsUploadURL info.Build.Runner info.Build.ID],
                  Item.endIf])) ∧
      generatePostBuildScript D { info with Build := { info.Build with Token := token } } =
        renderItems D
          (cdItem D info ::
            (findItems D (mapIndex info.Build.Options (lit "artifacts")) (lit "artifacts.files")
              ++ archiveItems D
              ++ [Item.ifFile (lit "artifacts.tgz"), echoItem D (lit "Uploading artifacts..."),
                  Item.command (lit "du") [lit "-h", lit "artifacts.tgz"],
                  Item.command (lit "curl")
                    [lit "-s", lit "-S", lit "--fail", lit "--retry", lit "3", lit "-X",
                     lit "POST", lit "-#", lit "-o", lit "artifacts.upload.log",
                     lit "-H", lit "BUILD-TOKEN: " ++ token,
                     lit "-F", lit "file=@artifacts.tgz",
                     D.GetArtifactsUploadURL info.Build.Runner info.Build.ID],
                  Item.endIf])) ∧
      (∀ doc, GenerateScript D info = some doc →
        ∃ other front,
          GenerateScript D { info with Build := { info.Build with Token := token } }
            = some other ∧
          other.Environment = doc.Environment ∧ other.Command = doc.Command ∧
          other.Arguments = doc.Arguments ∧
          doc.Script = front ++ evalLine D (generatePostBuildScript D info) ∧
          other.Script =
            front ++ evalLine D
              (generatePostBuildScript D
                { info with Build := { info.Build with Token := token } })) := by
  obtain ⟨hpre, hcmd, hcd⟩ := phases_without_token D info token hdir
  have hfull : fullProjectDir D { info with Build := { info.Build with Token := token } } =
      fullProjectDir D info := by
    simp [fullProjectDir, hdir]
  have hexp : generateExports D { info with Build := { info.Build with Token := token } } =
      generateExports D info := by
    unfold generateExports
    rw [hfull]
    exact congrArg (fun vars => List.foldl
      (fun w keyValue => executeCommand D w (lit "export") [keyValue]) [] vars) hvars
  refine ⟨hexp, hpre, hcmd, ?_, ?_, ?_⟩
  · rw [generatePostBuildScript_items]
    simp [postBuildItems, uploadItems, curlItem]
  · rw [generatePostBuildScript_items]
    simp [postBuildItems, uploadItems, curlItem, hcd]
  · intro doc hdoc
    rw [GenerateScript_value] at hdoc
    cases hp : generatePreBuildScript D info with
    | none => simp [hp] at hdoc
    | some pre =>
      simp only [hp, Option.map_some', Option.some.injEq] at hdoc
      subst hdoc
      have hother := GenerateScript_value D { info with Build := { info.Build with Token := token } }
      rw [hpre, hp, Option.map_some'] at hother
      have hfront : scriptFront D { info with Build := { info.Build with Token := token } } pre =
          scriptFront D info pre := by
        simp only [scriptFront, hexp, hcmd]
      refine ⟨_, scriptFront D info pre, hother, ?_, rfl, rfl, rfl, ?_⟩
      · rw [hfull]
        exact hvars
      · rw [hfront]

/-- The sample job and the sample job with the token `other`: the sample project
directory and variable list do not use the token, so the exports, the pre-build and
the command phases are the same. -/
theorem token_in_header_only_witness :
    sampleDeps.FullProjectDir { sampleInfo.Build with Token := lit "other" } =
        sampleDeps.FullProjectDir sampleInfo.Build ∧
      sampleDeps.GetVariables { sampleInfo.Build with Token := lit "other" }
          (fullProjectDir sampleDeps sampleInfo) sampleInfo.Environment =
        sampleDeps.GetVariables sampleInfo.Build (fullProjectDir sampleDeps sampleInfo)
          sampleInfo.Environment ∧
      generateExports sampleDeps
          { sampleInfo with Build := { sampleInfo.Build with Token := lit "other" } } =
        generateExports sampleDeps sampleInfo ∧
      generatePreBuildScript sampleDeps
          { sampleInfo with Build := { sampleInfo.Build with Token := lit "other" } } =
        generatePreBuildScript sampleDeps sampleInfo ∧
      generateCommands sampleDeps
          { sampleInfo with Build := { sampleInfo.Build with Token := lit "other" } } =
        generateCommands sampleDeps sampleInfo :=
  ⟨rfl, rfl, (token_in_header_only sampleDeps sampleInfo (lit "other") rfl rfl).1,
    (token_in_header_only sampleDeps sampleInfo (lit "other") rfl rfl).2.1,
    (token_in_header_only sampleDeps sampleInfo (lit "other") rfl rfl).2.2.1⟩

/-- Claim C14 as stated fails: the project directory and the variable list are
computed outside of this file from the whole build, the token included. With a
project directory named after the token and a variable list that has the token, the
sample job and the sample job with the token `other` differ in the token only, and
their exports, their pre-build phases and their command phases are different. -/
theorem token_in_header_only_counterexample :
    otherTokenInfo = { sampleInfo with Build := { sampleInfo.Build with Token := lit "other" } } ∧
      generateExports tokenDeps otherTokenInfo ≠ generateExports tokenDeps sampleInfo ∧
      generatePreBuildScript tokenDeps otherTokenInfo ≠
        generatePreBuildScript tokenDeps sampleInfo ∧
      generateCommands tokenDeps otherTokenInfo ≠ generateCommands tokenDeps sampleInfo := by
  refine ⟨rfl, ?_, ?_, ?_⟩ <;> decide

end ArtifactClaims

/-! ## The lines of the assembled script -/

section ScriptLines

variable {ρ : Type} (D : Deps ρ)

theorem GenerateScript_fields (info : ShellScriptInfo ρ) (doc : ShellScript)
    (h : GenerateScript D info = some doc) :
    ∃ pre, generatePreBuildScript D info = some pre ∧
      doc.Environment = D.GetVariables info.Build (fullProjectDir D info) info.Environment ∧
      doc.Script =
        lit "#!/usr/bin/env bash\n\n" ++ generateExports D info ++ lit "set -eo pipefail\n"
          ++ evalLine D pre ++ lit "echo\n" ++ evalLine D (generateCommands D info)
          ++ lit "echo\n" ++ evalLine D (generatePostBuildScript D info) := by
  unfold GenerateScript at h
  cases hpre : generatePreBuildScript D info with
  | none => simp [hpre] at h
  | some pre =>
    refine ⟨pre, rfl, ?_⟩
    simp only [hpre, ioWriteString, Option.bind_eq_bind, Option.some_bind, Option.pure_def,
      List.nil_append] at h
    cases hu : info.User <;> by_cases ht : info.Typ = ShellType.LoginShell <;>
      simp only [hu, ht, if_true, if_false, Option.some.injEq] at h <;>
      subst h <;> simp [evalLine]

theorem concatAll_append (xs ys : List Str) :
    concatAll (xs ++ ys) = concatAll xs ++ concatAll ys := by
  induction xs with
  | nil => rfl
  | cons x xs ih => simp [concatAll, ih]

theorem renderItems_exports (vars : List Str) :
    renderItems D (vars.map (fun keyValue => Item.command (lit "export") [keyValue])) =
      concatAll (vars.map (fun keyValue => commandLine D (lit "export") [keyValue])) := by
  induction vars with
  | nil => rfl
  | cons v vars ih => simp [renderItems, concatAll, Item.render, ih]

theorem isLine_of_body (body : Str) (h : (0x0a : UInt8) ∉ body) : IsLine (body ++ lit "\n") :=
  ⟨body, rfl, h⟩

theorem isLine_commandLine (hnl : ∀ s, (0x0a : UInt8) ∉ D.ShellEscape s) (cmd arg : Str) :
    IsLine (commandLine D cmd [arg]) := by
  have hsp : (0x0a : UInt8) ∉ lit " " := by decide
  have : commandLine D cmd [arg] = (D.ShellEscape cmd ++ lit " " ++ D.ShellEscape arg)
      ++ lit "\n" := by
    simp [commandLine, stringsJoin]
  rw [this]
  apply isLine_of_body
  simp [hnl, hsp]

theorem isLine_evalLine (hnl : ∀ s, (0x0a : UInt8) ∉ D.ShellEscape s) (phase : Str) :
    IsLine (evalLine D phase) := by
  have hev : (0x0a : UInt8) ∉ lit ": | eval " := by decide
  have : evalLine D phase = (lit ": | eval " ++ D.ShellEscape phase) ++ lit "\n" := by
    simp [evalLine]
  rw [this]
  apply isLine_of_body
  simp [hnl, hev]

/-- Claim C15. Provided the escaping primitive never writes a line feed, for every
job description on which `GenerateScript` returns, with `k` entries in the variable
list, the script is the concatenation of exactly `k + 8` texts that are each one
line (ended by a line feed and without another one): the shebang, a blank line, `k`
export lines, `set -eo pipefail`, and the three `: | eval` lines with a bare `echo`
between them; each phase text, whatever it holds, is the one escaped argument of
its `: | eval` line. -/
theorem GenerateScript_line_count (info : ShellScriptInfo ρ) (doc : ShellScript)
    (hnl : ∀ s, (0x0a : UInt8) ∉ D.ShellEscape s)
    (h : GenerateScript D info = some doc) :
    ∃ pre, generatePreBuildScript D info = some pre ∧
      doc.Script =
        concatAll (scriptLines D info
          (D.GetVariables info.Build (fullProjectDir D info) info.Environment) pre) ∧
      (scriptLines D info
          (D.GetVariables info.Build (fullProjectDir D info) info.Environment) pre).length =
        (D.GetVariables info.Build (fullProjectDir D info) info.Environment).length + 8 ∧
      ∀ line ∈ scriptLines D info
          (D.GetVariables info.Build (fullProjectDir D info) info.Environment) pre,
        IsLine line := by
  obtain ⟨pre, hpre, -, hscript⟩ := GenerateScript_fields D info doc h
  refine ⟨pre, hpre, ?_, ?_, ?_⟩
  · have hshebang : lit "#!/usr/bin/env bash\n\n" = lit "#!/usr/bin/env bash\n" ++ lit "\n" := by
      decide
    rw [hscript, generateExports_items, renderItems_exports, hshebang]
    simp [scriptLines, concatAll_append, concatAll]
  · simp [scriptLines]
  · intro line hline
    have h1 : IsLine (lit "#!/usr/bin/env bash\n") :=
      isLine_of_body (lit "#!/usr/bin/env bash") (by decide)
    have h2 : IsLine (lit "\n") := isLine_of_body [] (by simp)
    have h3 : IsLine (lit "set -eo pipefail\n") :=
      isLine_of_body (lit "set -eo pipefail") (by decide)
    have h4 : IsLine (lit "echo\n") := isLine_of_body (lit "echo") (by decide)
    simp only [scriptLines, List.mem_append, List.mem_cons, List.mem_singleton, List.mem_map,
      List.not_mem_nil, or_false] at hline
    rcases hline with ((rfl | rfl) | ⟨kv, -, rfl⟩) | rfl | rfl | rfl | rfl | rfl | rfl
    · exact h1
    · exact h2
    · exact isLine_commandLine D hnl _ _
    · exact h3
    · exact isLine_evalLine D hnl _
    · exact h4
    · exact isLine_evalLine D hnl _
    · exact h4
    · exact isLine_evalLine D hnl _

theorem ansiEscape_no_line_feed (s : Str) : (0x0a : UInt8) ∉ ansiEscape s := by
  have h1 : (0x0a : UInt8) ∉ lit "$'" := by decide
  have h2 : (0x0a : UInt8) ∉ lit "'" := by decide
  have h3 : (0x0a : UInt8) ∉ lit "\\n" := by decide
  have h4 : (0x0a : UInt8) ∉ lit "\\'" := by decide
  have h5 : (0x0a : UInt8) ∉ lit "\\\\" := by decide
  unfold ansiEscape
  simp only [List.mem_append, List.mem_flatMap, h1, h2, or_false, false_or, not_exists, not_and]
  intro b _
  by_cases hb1 : b = 0x0a
  · simp [hb1, h3]
  · by_cases hb2 : b = 0x27
    · simp [hb1, hb2, h4]
    · by_cases hb3 : b = 0x5c
      · simp [hb1, hb2, hb3, h5]
      · simp [hb1, hb2, hb3]
        exact fun h => hb1 h.symm

/-- The sample job with the quoting `$'...'` as escaping primitive: two variables,
ten lines. -/
theorem GenerateScript_line_count_witness :
    (∀ s, (0x0a : UInt8) ∉ lineDeps.ShellEscape s) ∧
      ∃ doc pre, GenerateScript lineDeps sampleInfo = some doc ∧
        generatePreBuildScript lineDeps sampleInfo = some pre ∧
        doc.Script = concatAll (scriptLines lineDeps sampleInfo sampleInfo.Environment pre) ∧
        (scriptLines lineDeps sampleInfo sampleInfo.Environment pre).length = 10 ∧
        ∀ line ∈ scriptLines lineDeps sampleInfo sampleInfo.Environment pre, IsLine line := by
  refine ⟨ansiEscape_no_line_feed, ?_⟩
  obtain ⟨doc, hdoc⟩ := GenerateScript_long lineDeps sampleInfo (by decide)
  obtain ⟨pre, hpre, hscript, hlen, hlines⟩ :=
    GenerateScript_line_count lineDeps sampleInfo doc ansiEscape_no_line_feed hdoc
  exact ⟨doc, pre, hdoc, hpre, hscript, hlen, hlines⟩

end ScriptLines

/-! ## The shape of the phases -/

section Blocks

variable {ρ : Type} (D : Deps ρ)

theorem blockStep_plain (state : BlockState) (item : Item) (h : item.isControl = false) :
    blockStep state item = some state := by
  simp only [Item.isControl, Bool.or_eq_false_iff] at h
  simp [blockStep, h.1.1, h.1.2, h.2]

theorem scanBlocks_plain (state : BlockState) (items : List Item)
    (h : ∀ item ∈ items, item.isControl = false) : scanBlocks state items = some state := by
  induction items with
  | nil => rfl
  | cons item rest ih =>
    simp only [scanBlocks, blockStep_plain state item (h item (List.mem_cons_self _ _))]
    exact ih (fun i hi => h i (List.mem_cons_of_mem _ hi))

theorem scanBlocks_append (state : BlockState) (xs ys : List Item) :
    scanBlocks state (xs ++ ys) = (scanBlocks state xs).bind (fun next => scanBlocks next ys) := by
  induction xs generalizing state with
  | nil => rfl
  | cons x xs ih =>
    simp only [List.cons_append, scanBlocks]
    cases blockStep state x with
    | none => rfl
    | some next => exact ih next

theorem count_plain (items : List Item) (h : ∀ item ∈ items, item.isControl = false) :
    countIf items = 0 ∧ countEndIf items = 0 := by
  simp only [countIf, countEndIf, List.countP_eq_zero]
  constructor <;> intro item hitem <;> have hc := h item hitem <;>
    simp only [Item.isControl, Bool.or_eq_false_iff] at hc <;> simp [hc.1.1, hc.2]

theorem scanBlocks_take (items : List Item) :
    ∀ (state next : BlockState), scanBlocks state items = some next →
      ∀ n, countEndIf (items.take n) ≤
        countIf (items.take n) + (if state = BlockState.outside then 0 else 1) := by
  induction items with
  | nil => intro state next _ n; simp [countEndIf, countIf]
  | cons item rest ih =>
    intro state next h n
    cases n with
    | zero => simp [countEndIf, countIf]
    | succ n =>
      simp only [scanBlocks] at h
      cases hstep : blockStep state item with
      | none => simp [hstep] at h
      | some mid =>
        simp only [hstep] at h
        have hrest := ih mid next h n
        simp only [List.take_succ_cons, countEndIf, countIf, List.countP_cons] at hrest ⊢
        cases item <;> cases state <;>
          simp [blockStep, Item.isIf, Item.isElse, Item.isEndIf] at hstep <;>
          subst hstep <;>
          simp [Item.isIf, Item.isEndIf] at hrest ⊢ <;>
          omega

theorem hostItem_plain (build : Build ρ) : (hostItem build).isControl = false := by
  unfold hostItem
  split <;> rfl

theorem cloneItems_plain (build : Build ρ) (projectDir : Str) :
    ∀ item ∈ cloneItems D build projectDir, item.isControl = false := by
  intro item hitem
  simp only [cloneItems, echoItem, List.mem_cons, List.mem_singleton, List.not_mem_nil,
    or_false] at hitem
  rcases hitem with rfl | rfl | rfl | rfl | rfl <;> rfl

theorem fetchItems_plain (build : Build ρ) (projectDir : Str) :
    ∀ item ∈ fetchItems D build projectDir, item.isControl = false := by
  intro item hitem
  simp only [fetchItems, echoItem, List.mem_cons, List.mem_singleton, List.not_mem_nil,
    or_false] at hitem
  rcases hitem with rfl | rfl | rfl | rfl | rfl | rfl <;> rfl

theorem checkoutItems_plain (build : Build ρ) :
    ∀ item ∈ checkoutItems D build, item.isControl = false := by
  intro item hitem
  simp only [checkoutItems, echoItem, List.mem_cons, List.mem_singleton, List.not_mem_nil,
    or_false] at hitem
  rcases hitem with rfl | rfl <;> rfl

theorem findItems_plain (list : Option Value) (filepath : Str) :
    ∀ item ∈ findItems D list filepath, item.isControl = false := by
  intro item hitem
  unfold findItems at hitem
  split at hitem
  · simp only [List.mem_append] at hitem
    rcases hitem with hitem | hitem
    · unfold pathsItems at hitem
      split at hitem
      · split at hitem
        · simp only [List.mem_singleton] at hitem
          subst hitem
          rfl
        · simp at hitem
      · simp at hitem
    · unfold untrackedItems at hitem
      split at hitem
      · simp only [List.mem_singleton] at hitem
        subst hitem
        rfl
      · simp at hitem
  · simp at hitem

theorem generatePreBuildScript_some (info : ShellScriptInfo ρ) (script : Str)
    (h : generatePreBuildScript D info = some script) :
    script = renderItems D (syncItems D info ++ checkoutItems D info.Build) := by
  by_cases h8 : 8 ≤ info.Build.Sha.length
  · rw [generatePreBuildScript_long D info h8] at h
    exact (Option.some.inj h).symm
  · rw [generatePreBuildScript_short D info (by omega)] at h
    cases h

theorem scanBlocks_cons (state : BlockState) (item : Item) (rest : List Item) :
    scanBlocks state (item :: rest) =
      (blockStep state item).bind (fun next => scanBlocks next rest) := by
  cases h : blockStep state item <;> simp [scanBlocks, h]

theorem scan_conditional (host : Item) (directory : Str) (thenItems elseItems tail : List Item)
    (hhost : host.isControl = false) (hthen : ∀ item ∈ thenItems, item.isControl = false)
    (helse : ∀ item ∈ elseItems, item.isControl = false)
    (htail : ∀ item ∈ tail, item.isControl = false) :
    scanBlocks BlockState.outside
        (host :: ([Item.ifDirectory directory] ++ thenItems ++ [Item.elseMark] ++ elseItems
          ++ [Item.endIf]) ++ tail) = some BlockState.outside := by
  have h1 : blockStep BlockState.outside (Item.ifDirectory directory)
      = some BlockState.inThen := rfl
  have h2 : blockStep BlockState.inThen Item.elseMark = some BlockState.inElse := rfl
  have h3 : blockStep BlockState.inElse Item.endIf = some BlockState.outside := rfl
  simp only [List.cons_append, List.nil_append, List.append_assoc, scanBlocks_cons,
    scanBlocks_append, blockStep_plain _ _ hhost, h1, h2, h3, scanBlocks_plain _ _ hthen,
    scanBlocks_plain _ _ helse, scanBlocks_plain _ _ htail, Option.some_bind]

theorem count_conditional (host : Item) (directory : Str) (thenItems elseItems tail : List Item)
    (hhost : host.isControl = false) (hthen : ∀ item ∈ thenItems, item.isControl = false)
    (helse : ∀ item ∈ elseItems, item.isControl = false)
    (htail : ∀ item ∈ tail, item.isControl = false) :
    countIf (host :: ([Item.ifDirectory directory] ++ thenItems ++ [Item.elseMark] ++ elseItems
          ++ [Item.endIf]) ++ tail) = 1 ∧
      countEndIf (host :: ([Item.ifDirectory directory] ++ thenItems ++ [Item.elseMark]
          ++ elseItems ++ [Item.endIf]) ++ tail) = 1 := by
  have c1 := count_plain _ hthen
  have c2 := count_plain _ helse
  have c3 := count_plain _ htail
  simp only [Item.isControl, Bool.or_eq_false_iff] at hhost
  have e1 : (Item.ifDirectory directory).isIf = true := rfl
  have e2 : Item.elseMark.isIf = false := rfl
  have e3 : Item.endIf.isIf = false := rfl
  have e4 : (Item.ifDirectory directory).isEndIf = false := rfl
  have e5 : Item.elseMark.isEndIf = false := rfl
  have e6 : Item.endIf.isEndIf = true := rfl
  simp only [countIf, countEndIf] at c1 c2 c3 ⊢
  simp [List.countP_cons, List.countP_append, c1, c2, c3, hhost.1.1, hhost.2, e1, e2, e3, e4,
    e5, e6]

theorem preBuildItems_scan (info : ShellScriptInfo ρ) :
    wellNested (syncItems D info ++ checkoutItems D info.Build) := by
  unfold wellNested syncItems
  have hhost := hostItem_plain info.Build
  have hclone := cloneItems_plain D info.Build (fullProjectDir D info)
  have hfetch := fetchItems_plain D info.Build (fullProjectDir D info)
  have hcheck := checkoutItems_plain D info.Build
  cases info.Build.AllowGitFetch with
  | false =>
    apply scanBlocks_plain
    intro item hitem
    simp only [Bool.false_eq_true, if_false, List.cons_append, List.mem_cons,
      List.mem_append] at hitem
    rcases hitem with rfl | hitem | hitem
    · exact hhost
    · exact hclone item hitem
    · exact hcheck item hitem
  | true => exact scan_conditional _ _ _ _ _ hhost hfetch hclone hcheck

theorem preBuildItems_count (info : ShellScriptInfo ρ) :
    countIf (syncItems D info ++ checkoutItems D info.Build) =
        (if info.Build.AllowGitFetch then 1 else 0) ∧
      countEndIf (syncItems D info ++ checkoutItems D info.Build) =
        (if info.Build.AllowGitFetch then 1 else 0) := by
  have hhost := hostItem_plain info.Build
  have hclone := cloneItems_plain D info.Build (fullProjectDir D info)
  have hfetch := fetchItems_plain D info.Build (fullProjectDir D info)
  have hcheck := checkoutItems_plain D info.Build
  unfold syncItems
  cases info.Build.AllowGitFetch with
  | false =>
    apply count_plain
    intro item hitem
    simp only [Bool.false_eq_true, if_false, List.cons_append, List.mem_cons,
      List.mem_append] at hitem
    rcases hitem with rfl | hitem | hitem
    · exact hhost
    · exact hclone item hitem
    · exact hcheck item hitem
  | true => exact count_conditional _ _ _ _ _ hhost hfetch hclone hcheck

theorem postBuildItems_scan (info : ShellScriptInfo ρ) : wellNested (postBuildItems D info) := by
  unfold wellNested postBuildItems
  have hcd : (cdItem D info).isControl = false := rfl
  have hfind := findItems_plain D (mapIndex info.Build.Options (lit "artifacts"))
    (lit "artifacts.files")
  simp only [scanBlocks, blockStep_plain _ _ hcd, List.append_assoc, scanBlocks_append,
    scanBlocks_plain _ _ hfind, Option.some_bind]
  rfl

theorem postBuildItems_count (info : ShellScriptInfo ρ) :
    countIf (postBuildItems D info) = 2 ∧ countEndIf (postBuildItems D info) = 2 := by
  have hfind := count_plain _ (findItems_plain D (mapIndex info.Build.Options (lit "artifacts"))
    (lit "artifacts.files"))
  simp only [countIf, countEndIf] at hfind ⊢
  unfold postBuildItems
  simp [List.countP_cons, List.countP_append, hfind, archiveItems, uploadItems, curlItem,
    echoItem, cdItem, Item.isIf, Item.isEndIf]

/-- Claim C16. With `AllowGitFetch`, for a job whose commit has at least eight bytes,
the pre-build script is the text of: the host line, the opening of the conditional,
then as the then-branch exactly the bold-green echo of `Fetching changes...`,
`cd <project dir>`, `git clean -ffdx`, `git reset --hard`,
`git remote set-url origin <RepoURL>`, `git fetch origin`, in this order; `else`;
then the else-branch, which begins with the bold-green echo of
`Cloning repository...` before `rm`, `mkdir`, `git clone` and `cd`; `fi`; and the
checkout lines. Every argument is written as its escaped token. -/
theorem generatePreBuildScript_fetch_branch (info : ShellScriptInfo ρ)
    (h : 8 ≤ info.Build.Sha.length) (hf : info.Build.AllowGitFetch = true) :
    generatePreBuildScript D info =
      some (renderItems D
        ([hostItem info.Build, Item.ifDirectory (gitDirOf D info)]
          ++ [echoItem D (lit "Fetching changes..."),
              Item.command (lit "cd") [fullProjectDir D info],
              Item.command (lit "git") [lit "clean", lit "-ffdx"],
              Item.command (lit "git") [lit "reset", lit "--hard"],
              Item.command (lit "git")
                [lit "remote", lit "set-url", lit "origin", info.Build.RepoURL],
              Item.command (lit "git") [lit "fetch", lit "origin"]]
          ++ [Item.elseMark]
          ++ [echoItem D (lit "Cloning repository..."),
              Item.command (lit "rm") [lit "-rf", fullProjectDir D info],
              Item.command (lit "mkdir") [lit "-p", fullProjectDir D info],
              Item.command (lit "git")
                [lit "clone", info.Build.RepoURL, fullProjectDir D info],
              Item.command (lit "cd") [fullProjectDir D info]]
          ++ [Item.endIf]
          ++ checkoutItems D info.Build)) := by
  rw [generatePreBuildScript_long D info h]
  simp [syncItems, hf, fetchItems, cloneItems]

/-- The sample job with the fetch allowed has the fetch lines in its then-branch. -/
theorem generatePreBuildScript_fetch_branch_witness :
    8 ≤ fetchInfo.Build.Sha.length ∧ fetchInfo.Build.AllowGitFetch = true ∧
      generatePreBuildScript sampleDeps fetchInfo =
        some (renderItems sampleDeps
          ([hostItem fetchInfo.Build, Item.ifDirectory (lit "/builds/group/project/.git")]
            ++ [echoItem sampleDeps (lit "Fetching changes..."),
                Item.command (lit "cd") [lit "/builds/group/project"],
                Item.command (lit "git") [lit "clean", lit "-ffdx"],
                Item.command (lit "git") [lit "reset", lit "--hard"],
                Item.command (lit "git")
                  [lit "remote", lit "set-url", lit "origin", lit "https://example/repo.git"],
                Item.command (lit "git") [lit "fetch", lit "origin"]]
            ++ [Item.elseMark]
            ++ [echoItem sampleDeps (lit "Cloning repository..."),
                Item.command (lit "rm") [lit "-rf", lit "/builds/group/project"],
                Item.command (lit "mkdir") [lit "-p", lit "/builds/group/project"],
                Item.command (lit "git")
                  [lit "clone", lit "https://example/repo.git", lit "/builds/group/project"],
                Item.command (lit "cd") [lit "/builds/group/project"]]
            ++ [Item.endIf]
            ++ checkoutItems sampleDeps fetchInfo.Build)) :=
  ⟨by decide, rfl,
    (generatePreBuildScript_fetch_branch sampleDeps fetchInfo (by decide) rfl).trans
      (by
        have hg : gitDirOf sampleDeps fetchInfo = lit "/builds/group/project/.git" := by decide
        rw [hg]
        rfl)⟩

/-- Claim C17. For every job description and every option map, the lines of the
pre-build script (the text the builder returns, and it returns for every commit of at
least eight bytes) and the lines of the post-build script have well formed
conditional blocks: every `if` line opens a block outside of every other block and is
closed by a later `fi` line, an `else` line stands in the then-branch of an open
block only, no beginning of the sequence has more `fi` lines than `if` lines, and the
numbers of `if` lines and `fi` lines are equal: one block in the pre-build script
with `AllowGitFetch` and none without, two in the post-build script. -/
theorem blocks_well_nested (info : ShellScriptInfo ρ) :
    ((8 ≤ info.Build.Sha.length →
        generatePreBuildScript D info =
          some (renderItems D (syncItems D info ++ checkoutItems D info.Build))) ∧
      (∀ script, generatePreBuildScript D info = some script →
        script = renderItems D (syncItems D info ++ checkoutItems D info.Build)) ∧
      wellNested (syncItems D info ++ checkoutItems D info.Build) ∧
      countIf (syncItems D info ++ checkoutItems D info.Build) =
        (if info.Build.AllowGitFetch then 1 else 0) ∧
      countEndIf (syncItems D info ++ checkoutItems D info.Build) =
        (if info.Build.AllowGitFetch then 1 else 0) ∧
      ∀ n, countEndIf ((syncItems D info ++ checkoutItems D info.Build).take n) ≤
        countIf ((syncItems D info ++ checkoutItems D info.Build).take n)) ∧
    (generatePostBuildScript D info = renderItems D (postBuildItems D info) ∧
      wellNested (postBuildItems D info) ∧
      countIf (postBuildItems D info) = 2 ∧
      countEndIf (postBuildItems D info) = 2 ∧
      ∀ n, countEndIf ((postBuildItems D info).take n) ≤
        countIf ((postBuildItems D info).take n)) := by
  refine ⟨⟨generatePreBuildScript_long D info, generatePreBuildScript_some D info,
      preBuildItems_scan D info, (preBuildItems_count D info).1,
      (preBuildItems_count D info).2, ?_⟩,
    ⟨generatePostBuildScript_items D info, postBuildItems_scan D info,
      (postBuildItems_count D info).1, (postBuildItems_count D info).2, ?_⟩⟩
  · intro n
    simpa using scanBlocks_take _ _ _ (preBuildItems_scan D info) n
  · intro n
    simpa using scanBlocks_take _ _ _ (postBuildItems_scan D info) n

/-- The sample job with the fetch allowed: its pre-build script is the text of a
sequence with one block, its post-build script of a sequence with two, all well
formed. -/
theorem blocks_well_nested_witness :
    8 ≤ fetchInfo.Build.Sha.length ∧
      generatePreBuildScript sampleDeps fetchInfo =
        some (renderItems sampleDeps
          (syncItems sampleDeps fetchInfo ++ checkoutItems sampleDeps fetchInfo.Build)) ∧
      wellNested (syncItems sampleDeps fetchInfo ++ checkoutItems sampleDeps fetchInfo.Build) ∧
      countIf (syncItems sampleDeps fetchInfo ++ checkoutItems sampleDeps fetchInfo.Build) = 1 ∧
      wellNested (postBuildItems sampleDeps fetchInfo) ∧
      countIf (postBuildItems sampleDeps fetchInfo) = 2 :=
  ⟨by decide, (blocks_well_nested sampleDeps fetchInfo).1.1 (by decide),
    (blocks_well_nested sampleDeps fetchInfo).1.2.2.1,
    (blocks_well_nested sampleDeps fetchInfo).1.2.2.2.1,
    (blocks_well_nested sampleDeps fetchInfo).2.2.1,
    (blocks_well_nested sampleDeps fetchInfo).2.2.2.1⟩

/-- Claim C18. For every job description, the pre-build script (the text the builder
returns, and it returns for every commit of at least eight bytes) is the lines of the
synchronisation followed by the checkout narration and, last, the `git checkout`
line. Without `AllowGitFetch` the
synchronisation ends with `git clone` and, right after it, `cd <project dir>`; with
`AllowGitFetch` the then-branch has `cd <project dir>` as its second line and the
else-branch ends with `git clone` and then `cd <project dir>`: on every path a
`cd <project dir>` line comes before the checkout. The command phase and the
post-build phase both begin with the `cd <project dir>` line. -/
theorem checkout_in_project_dir (info : ShellScriptInfo ρ) :
    (8 ≤ info.Build.Sha.length →
      generatePreBuildScript D info =
        some (renderItems D
          (syncItems D info ++
            [echoItem D
                (lit "Checking out " ++ info.Build.Sha.take 8 ++ lit " as "
                  ++ info.Build.RefName ++ lit "..."),
              Item.command (lit "git") [lit "checkout", info.Build.Sha]]))) ∧
      (∀ script, generatePreBuildScript D info = some script →
        script =
          renderItems D
            (syncItems D info ++
              [echoItem D
                  (lit "Checking out " ++ info.Build.Sha.take 8 ++ lit " as "
                    ++ info.Build.RefName ++ lit "..."),
                Item.command (lit "git") [lit "checkout", info.Build.Sha]])) ∧
      (info.Build.AllowGitFetch = false →
        syncItems D info =
          [hostItem info.Build,
            echoItem D (lit "Cloning repository..."),
            Item.command (lit "rm") [lit "-rf", fullProjectDir D info],
            Item.command (lit "mkdir") [lit "-p", fullProjectDir D info],
            Item.command (lit "git") [lit "clone", info.Build.RepoURL, fullProjectDir D info],
            Item.command (lit "cd") [fullProjectDir D info]]) ∧
      (info.Build.AllowGitFetch = true →
        syncItems D info =
          [hostItem info.Build,
            Item.ifDirectory (gitDirOf D info),
            echoItem D (lit "Fetching changes..."),
            Item.command (lit "cd") [fullProjectDir D info],
            Item.command (lit "git") [lit "clean", lit "-ffdx"],
            Item.command (lit "git") [lit "reset", lit "--hard"],
            Item.command (lit "git")
              [lit "remote", lit "set-url", lit "origin", info.Build.RepoURL],
            Item.command (lit "git") [lit "fetch", lit "origin"],
            Item.elseMark,
            echoItem D (lit "Cloning repository..."),
            Item.command (lit "rm") [lit "-rf", fullProjectDir D info],
            Item.command (lit "mkdir") [lit "-p", fullProjectDir D info],
            Item.command (lit "git") [lit "clone", info.Build.RepoURL, fullProjectDir D info],
            Item.command (lit "cd") [fullProjectDir D info],
            Item.endIf]) ∧
      generateCommands D info =
        renderItems D (Item.command (lit "cd") [fullProjectDir D info] :: commandItems D info) ∧
      generatePostBuildScript D info =
        renderItems D
          (Item.command (lit "cd") [fullProjectDir D info] ::
            (findItems D (mapIndex info.Build.Options (lit "artifacts")) (lit "artifacts.files")
              ++ archiveItems D
              ++ uploadItems D info.Build.Token info.Build.Runner info.Build.ID)) := by
  refine ⟨?_, ?_, ?_, ?_, ?_, ?_⟩
  · intro h
    rw [generatePreBuildScript_long D info h]
    rfl
  · intro script hscript
    exact generatePreBuildScript_some D info script hscript
  · intro hf
    simp [syncItems, hf, cloneItems]
  · intro hf
    simp [syncItems, hf, fetchItems, cloneItems]
  · unfold commandItems
    cases hv : BoolOrDefault info.Build.Runner.DisableVerbose false with
    | false =>
      rw [generateCommands_narrated D info hv]
      simp [cdItem]
    | true =>
      rw [generateCommands_quiet D info hv]
      simp [cdItem]
  · rw [generatePostBuildScript_items]
    rfl

/-- The sample job clones: `cd` of the project directory right after `git clone`,
before the checkout. -/
theorem checkout_in_project_dir_witness :
    8 ≤ sampleInfo.Build.Sha.length ∧
      syncItems sampleDeps sampleInfo =
        [hostItem sampleInfo.Build,
          echoItem sampleDeps (lit "Cloning repository..."),
          Item.command (lit "rm") [lit "-rf", lit "/builds/group/project"],
          Item.command (lit "mkdir") [lit "-p", lit "/builds/group/project"],
          Item.command (lit "git")
            [lit "clone", lit "https://example/repo.git", lit "/builds/group/project"],
          Item.command (lit "cd") [lit "/builds/group/project"]] :=
  ⟨by decide, (checkout_in_project_dir sampleDeps sampleInfo).2.2.1 rfl⟩

/-- Claim C19, as amended. For every job description whose commit has at least eight
bytes `GenerateScript` returns a document; its environment list is the list of the
variable producer for the build, the project directory and the extra environment,
and its script is the shebang and the blank line, then one line for every entry of
that list, in the order of the list and as many as the list has entries, then the
rest of the script; the line of an entry is the escaped token of the word `export`,
a space, the escaped token of the entry and a line feed. -/
theorem environment_is_exported (info : ShellScriptInfo ρ)
    (h : 8 ≤ info.Build.Sha.length) :
    ∃ doc, GenerateScript D info = some doc ∧
      doc.Environment = D.GetVariables info.Build (fullProjectDir D info) info.Environment ∧
      (∃ pre, generatePreBuildScript D info = some pre ∧
        doc.Script =
          lit "#!/usr/bin/env bash\n\n"
            ++ concatAll
                (doc.Environment.map (fun keyValue => commandLine D (lit "export") [keyValue]))
            ++ (lit "set -eo pipefail\n" ++ evalLine D pre ++ lit "echo\n"
              ++ evalLine D (generateCommands D info) ++ lit "echo\n"
              ++ evalLine D (generatePostBuildScript D info))) ∧
      (doc.Environment.map (fun keyValue => commandLine D (lit "export") [keyValue])).length =
        doc.Environment.length ∧
      (∀ keyValue, commandLine D (lit "export") [keyValue] =
        D.ShellEscape (lit "export") ++ lit " " ++ D.ShellEscape keyValue ++ lit "\n") := by
  obtain ⟨doc, hdoc⟩ := GenerateScript_long D info h
  obtain ⟨pre, hpre, henv, hscript⟩ := GenerateScript_fields D info doc hdoc
  have hline : ∀ keyValue, commandLine D (lit "export") [keyValue] =
      D.ShellEscape (lit "export") ++ lit " " ++ D.ShellEscape keyValue ++ lit "\n" := by
    intro keyValue
    simp [commandLine, stringsJoin]
  refine ⟨doc, hdoc, henv, ⟨pre, hpre, ?_⟩, by simp, hline⟩
  rw [hscript, generateExports_items, renderItems_exports, henv]
  simp only [List.append_assoc]

/-- The sample job: the environment list of the document is `CI=true`, `NAME=a b`,
and the two export lines are `'export' 'CI=true'` and `'export' 'NAME=a b'`. -/
theorem environment_is_exported_witness :
    ∃ doc, GenerateScript sampleDeps sampleInfo = some doc ∧
      doc.Environment = [lit "CI=true", lit "NAME=a b"] ∧
      doc.Environment.map (fun keyValue => commandLine sampleDeps (lit "export") [keyValue]) =
        [lit "'export' 'CI=true'\n", lit "'export' 'NAME=a b'\n"] := by
  obtain ⟨doc, hdoc, henv, -⟩ := environment_is_exported sampleDeps sampleInfo (by decide)
  refine ⟨doc, hdoc, henv, ?_⟩
  rw [henv]
  decide

/-- Claim C19 as stated fails: for the sample job with single quoting as the escaping
primitive, the document has the environment list `CI=true`, `NAME=a b`, and the
export lines of its script are `'export' 'CI=true'` and `'export' 'NAME=a b'`, not
the lines `export ` followed by the escaped token of the entry: the word `export` is
escaped too. -/
theorem environment_is_exported_counterexample :
    ∃ doc, GenerateScript sampleDeps sampleInfo = some doc ∧
      doc.Environment = [lit "CI=true", lit "NAME=a b"] ∧
      generateExports sampleDeps sampleInfo =
        lit "'export' 'CI=true'\n'export' 'NAME=a b'\n" ∧
      concatAll (doc.Environment.map (exportLineLiteral sampleDeps)) =
        lit "export 'CI=true'\nexport 'NAME=a b'\n" ∧
      generateExports sampleDeps sampleInfo ≠
        concatAll (doc.Environment.map (exportLineLiteral sampleDeps)) := by
  obtain ⟨doc, hdoc⟩ := GenerateScript_long sampleDeps sampleInfo (by decide)
  obtain ⟨-, -, henv, -⟩ := GenerateScript_fields sampleDeps sampleInfo doc hdoc
  refine ⟨doc, hdoc, henv, by decide, ?_, ?_⟩
  · rw [henv]
    decide
  · rw [henv]
    decide

end Blocks

end Shells
